import Mathlib

/-!
Verification of the crayon-cost-mcp-server request pipeline and analytics.

The TypeScript sources are shallowly embedded: pure computations become Lean
functions over `ℚ` (JS numbers on the exact-arithmetic fragment the claims
talk about), fallible upstream calls become `Except`-valued inputs, and the
JavaScript regex-compile step (`new RegExp`) is abstracted as a boolean
parameter `compiles` since its success is decided by the JS engine, not by
this repository's code.
-/

namespace Crayon

/-! ## String helpers (model of JS `String.prototype.includes`) -/

/-- Does `pat` occur as a contiguous sublist of `s`? -/
def containsSub (pat : List Char) : List Char → Bool
  | [] => List.isPrefixOf pat []
  | c :: rest => List.isPrefixOf pat (c :: rest) || containsSub pat rest

/-- Model of JS `s.includes(pat)`. -/
def strIncludes (s pat : String) : Bool :=
  containsSub pat.toList s.toList

/-- Model of JS `s.startsWith(pre)` (on code points). -/
def strStartsWith (s pre : String) : Bool :=
  List.isPrefixOf pre.toList s.toList

/-- Model of JS `s.substring(n)` (on code points). -/
def strDrop (s : String) (n : Nat) : String :=
  String.mk (s.toList.drop n)

/-- Lexicographic comparison of code-point lists (JS `<` on strings). -/
def clLt : List Char → List Char → Bool
  | [], [] => false
  | [], _ :: _ => true
  | _ :: _, [] => false
  | a :: as, b :: bs => if a < b then true else if b < a then false else clLt as bs

/-- JS string comparison `a < b`. -/
def strLtJs (a b : String) : Bool := clLt a.toList b.toList

/-- JS string comparison `a <= b` (what the default array sort produces). -/
def strLeJs (a b : String) : Bool := !(strLtJs b a)

/-! ## Error sanitization (`sanitizeErrorMessage`, src/unnamed/part_001)

Translated check-for-check from the source: each `message.includes(...)`
test in its original order.  The logging side effect is outside the model. -/

def sanitizeErrorMessage (message : String) : String :=
  if strIncludes message "token" then "Authentication error"
  else if strIncludes message "credential" then "Authentication failed"
  else if strIncludes message "401" || strIncludes message "Unauthorized" then "Authentication failed"
  else if strIncludes message "403" || strIncludes message "Forbidden" then "Access denied"
  else if strIncludes message "404" || strIncludes message "not found" then "Resource not found"
  else if strIncludes message "timeout" then "Request timeout - service took too long to respond"
  else if strIncludes message "Circuit" then "Service temporarily unavailable"
  else if strIncludes message "ECONNREFUSED" then "Service connection failed"
  else "An error occurred processing your request"

/-- The closed set of messages the sanitizer can emit. -/
def sanitizeOutcomes : List String :=
  ["Authentication error", "Authentication failed", "Access denied",
   "Resource not found", "Request timeout - service took too long to respond",
   "Service temporarily unavailable", "Service connection failed",
   "An error occurred processing your request"]

/-- Sanitization rule table written from the amended specification text:
the first rule whose trigger list has a member contained in the message
fires; otherwise the generic message is returned. -/
def sanitizeRules : List (List String × String) :=
  [(["token"], "Authentication error"),
   (["credential"], "Authentication failed"),
   (["401", "Unauthorized"], "Authentication failed"),
   (["403", "Forbidden"], "Access denied"),
   (["404", "not found"], "Resource not found"),
   (["timeout"], "Request timeout - service took too long to respond"),
   (["Circuit"], "Service temporarily unavailable"),
   (["ECONNREFUSED"], "Service connection failed")]

/-- Specification-side sanitizer: first matching rule wins. -/
def sanitizeSpec (message : String) : String :=
  match sanitizeRules.find? (fun r => r.1.any (fun t => strIncludes message t)) with
  | some r => r.2
  | none => "An error occurred processing your request"

/-- Model of the `CallToolRequestSchema` handler's catch branch
(src/unnamed/part_000): the response returned to the caller on a tool
failure.  `uuid` stands for the `randomUUID()` result. -/
structure ToolErrorResponse where
  error : String
  tool : String
  requestId : String
  isError : Bool
deriving DecidableEq, Repr

def handleToolFailure (name uuid message : String) : ToolErrorResponse :=
  { error := sanitizeErrorMessage message
    tool := name
    requestId := uuid
    isError := true }

/-! ## Circuit-breaker wrapper (`createCircuitBreakerWrapper().execute`,
src/unnamed/part_001)

The outcome of `breaker.fire(apiCall)` — success, upstream failure, open
circuit or timeout — is the `op : Except ε JVal` input.  The JS truthiness
test `if (fallback)` is modelled by `JVal.truthy`. -/

/-- A JavaScript value, as far as truthiness is concerned. -/
inductive JVal where
  | vNull : JVal
  | vBool : Bool → JVal
  | vNum : ℚ → JVal
  | vStr : String → JVal
  | vObj : JVal
deriving DecidableEq, Repr

/-- JS truthiness: `null`, `false`, `0`, and `""` are falsy; objects and
arrays are always truthy. -/
def JVal.truthy : JVal → Bool
  | .vNull => false
  | .vBool b => b
  | .vNum q => decide (q ≠ 0)
  | .vStr s => decide (s ≠ "")
  | .vObj => true

/-- `execute(apiCall, fallback?)`: translated from the try/catch —
on success return the result; on failure return the fallback when it is
truthy (`if (fallback)`), otherwise re-throw the original error. -/
def breakerExecute (op : Except String JVal) (fallback : Option JVal) :
    Except String JVal :=
  match op with
  | .ok v => .ok v
  | .error e =>
    match fallback with
    | some f => if f.truthy then .ok f else .error e
    | none => .error e

/-! ## Input validation (src/src/middleware/validation.ts)

`validateRegexPattern` is translated literally except for the final
`new RegExp(pattern, 'i')` step, which is the JS engine's parser and is
abstracted as the boolean parameter `compiles`.  The five denylist regexes
are unanchored searches, and each is equivalent to a concrete substring /
window scan on the pattern, implemented below. -/

def isWordChar (ch : Char) : Bool := ch.isAlphanum || ch = '_'

/-- Scan for a 3-character window satisfying `p`. -/
def hasWin3 (p : Char → Char → Char → Bool) : List Char → Bool
  | a :: b :: c :: rest => p a b c || hasWin3 p (b :: c :: rest)
  | _ => false

/-- Scan for a 5-character window satisfying `p`. -/
def hasWin5 (p : Char → Char → Char → Char → Char → Bool) : List Char → Bool
  | a :: b :: c :: d :: e :: rest => p a b c d e || hasWin5 p (b :: c :: d :: e :: rest)
  | _ => false

/-- Denylist regex `/(\w\+)+\$/`: an unanchored match exists exactly when a
word character is followed by `+$`. -/
def dangerousQuantAnchor (s : List Char) : Bool :=
  hasWin3 (fun a b c => isWordChar a && b = '+' && c = '$') s

/-- Denylist regex `/\(\.\*\)\+/`: the literal substring `(.*)+`. -/
def dangerousNestedQuant (s : List Char) : Bool :=
  containsSub ['(', '.', '*', ')', '+'] s

/-- Denylist regex `/(\[\w\-\]\+)+/`: an unanchored match exists exactly when
the 5-character shape `[w-]+` (with `w` a word character) occurs. -/
def dangerousCharClass (s : List Char) : Bool :=
  hasWin5 (fun a b c d e => a = '[' && isWordChar b && c = '-' && d = ']' && e = '+') s

/-- Denylist regex `/(\.\*){2,}/`: the literal substring `.*.*`. -/
def dangerousDoubleWild (s : List Char) : Bool :=
  containsSub ['.', '*', '.', '*'] s

/-- After a `(`, scan forward for `)*` with no intervening newline
(`.` in a JS regex does not match `\n`). -/
def closeStarBeforeNewline : List Char → Bool
  | ')' :: '*' :: _ => true
  | '\n' :: _ => false
  | _ :: rest => closeStarBeforeNewline rest
  | [] => false

/-- Denylist regex `/\(.*\)\*/`: a `(` eventually followed by `)*` on the
same line. -/
def dangerousGroupStar : List Char → Bool
  | '(' :: rest => closeStarBeforeNewline rest || dangerousGroupStar rest
  | _ :: rest => dangerousGroupStar rest
  | [] => false

/-- The `dangerousPatterns.test` loop of `validateRegexPattern`. -/
def anyDangerous (s : List Char) : Bool :=
  dangerousQuantAnchor s || dangerousNestedQuant s || dangerousCharClass s ||
    dangerousDoubleWild s || dangerousGroupStar s

/-- `validateRegexPattern(pattern)`.  `compiles` abstracts whether
`new RegExp(pattern, 'i')` succeeds. -/
def validateRegexPattern (compiles : String → Bool) (pattern : String) :
    Except String String :=
  if pattern.length > 100 then
    .error "Pattern too long (max 100 characters)"
  else if anyDangerous pattern.toList then
    .error "Pattern contains potentially dangerous regex constructs (possible ReDoS)"
  else if compiles pattern then
    .ok pattern
  else
    .error "Invalid regex pattern"

/-! ### The Joi tool-input schemas

`validateToolInput` runs a Joi schema with `abortEarly: false`,
`convert: true`, `stripUnknown: true`.  The Joi combinators actually used by
`schemas` are modelled: argument objects are association lists of JS
values, each field is checked (with string→number / string→boolean
conversion), defaults are applied to absent fields, and unknown fields are
stripped.  ISO-date validation is modelled as a syntactic `YYYY-MM-DD`
shape check on the string (Joi additionally converts to a `Date`, which
round-trips unchanged on re-validation).

`Joi.ObjectSchema.validateAsync` resolves with the normalized value itself
(it is the synchronous `validate` that returns a `{ value, error }`
record); `validateAsyncResolved` below models that resolved object, and
`validateToolInput` composes the source's
`const { value, error } = await schema.validateAsync(...)` destructuring
on top of it, reading the `value` and `error` properties of the resolved
object. -/

/-- A JS argument value. -/
inductive ArgVal where
  | num : ℚ → ArgVal
  | str : String → ArgVal
  | bool : Bool → ArgVal
  | obj : List (String × ArgVal) → ArgVal
deriving Repr

def ArgVal.beq : ArgVal → ArgVal → Bool
  | .num a, .num b => a == b
  | .str a, .str b => a == b
  | .bool a, .bool b => a == b
  | .obj a, .obj b => go a b
  | _, _ => false
where
  go : List (String × ArgVal) → List (String × ArgVal) → Bool
  | [], [] => true
  | (k, v) :: r, (k', v') :: r' => k == k' && ArgVal.beq v v' && go r r'
  | _, _ => false

instance : BEq ArgVal := ⟨ArgVal.beq⟩

/-- An argument object: an association list of named values. -/
abbrev Args := List (String × ArgVal)

/-- Parse an unsigned decimal integer. -/
def parseDigits : List Char → Option Nat
  | [] => none
  | cs => cs.foldl (fun acc c => match acc with
      | none => none
      | some n => if c.isDigit then some (n * 10 + (c.toNat - 48)) else none)
      (some 0)

/-- Parse a decimal numeral with optional sign and fractional part —
the fragment of JS numeric string conversion the schemas rely on. -/
def parseDec : String → Option ℚ := fun s =>
  let core : List Char → Option ℚ := fun cs =>
    match cs.splitOn '.' with
    | [intPart] => (parseDigits intPart).map (fun n => (n : ℚ))
    | [intPart, fracPart] =>
      match parseDigits intPart, parseDigits fracPart with
      | some n, some f => some ((n : ℚ) + (f : ℚ) / ((10 : ℚ) ^ fracPart.length))
      | _, _ => none
    | _ => none
  match s.toList with
  | '-' :: rest => (core rest).map Neg.neg
  | cs => core cs

/-- Coerce a value to a number, as Joi's `convert: true` does for
`Joi.number()` fields. -/
def toNum : ArgVal → Option ℚ
  | .num q => some q
  | .str s => parseDec s
  | _ => none

/-- Syntactic `YYYY-MM-DD...` shape check modelling `Joi.date().iso()`. -/
def isIsoDateStr (s : String) : Bool :=
  match s.toList with
  | y1 :: y2 :: y3 :: y4 :: '-' :: m1 :: m2 :: '-' :: d1 :: d2 :: _ =>
    y1.isDigit && y2.isDigit && y3.isDigit && y4.isDigit &&
      m1.isDigit && m2.isDigit && d1.isDigit && d2.isDigit
  | _ => false

/-- The Joi field combinators used by `schemas`. -/
inductive FieldType where
  /-- `Joi.number().integer()` with a lower and optional upper bound
  (`positive()` / `min(1)` are both the bound `1`). -/
  | intField : Int → Option Int → FieldType
  /-- `Joi.number().min(lo).max(hi)` (non-integer allowed). -/
  | numField : ℚ → ℚ → FieldType
  /-- `Joi.string().valid(...)`. -/
  | enumField : List String → FieldType
  /-- `Joi.date().iso()`. -/
  | dateField : FieldType
  /-- `Joi.boolean()`. -/
  | boolField : FieldType
  /-- `Joi.string().max(n)` plus the `external` `validateRegexPattern` check
  (the `namePattern` field). -/
  | patternField : Nat → FieldType
  /-- `Joi.object().pattern(Joi.string(), Joi.string())`. -/
  | tagsField : FieldType
deriving Repr

/-- Check (and convert) one value against a field combinator; `none` means
a validation failure. -/
def checkVal (compiles : String → Bool) : FieldType → ArgVal → Option ArgVal
  | .intField lo hi, v =>
    match toNum v with
    | some q =>
      if q.den = 1 ∧ (lo : ℚ) ≤ q ∧ (∀ h ∈ hi, q ≤ (h : ℚ)) then some (.num q) else none
    | none => none
  | .numField lo hi, v =>
    match toNum v with
    | some q => if lo ≤ q ∧ q ≤ hi then some (.num q) else none
    | none => none
  | .enumField opts, v =>
    match v with
    | .str s => if s ∈ opts then some (.str s) else none
    | _ => none
  | .dateField, v =>
    match v with
    | .str s => if isIsoDateStr s then some (.str s) else none
    | _ => none
  | .boolField, v =>
    match v with
    | .bool b => some (.bool b)
    | .str s => if s = "true" then some (.bool true)
                else if s = "false" then some (.bool false) else none
    | _ => none
  | .patternField maxLen, v =>
    match v with
    | .str s =>
      if s.length ≤ maxLen ∧ (validateRegexPattern compiles s).isOk then some (.str s)
      else none
    | _ => none
  | .tagsField, v =>
    match v with
    | .obj fields =>
      if fields.all (fun kv => match kv.2 with | .str _ => true | _ => false) then
        some (.obj fields)
      else none
    | _ => none

/-- One named field of a schema. -/
structure FieldSpec where
  name : String
  ty : FieldType
  required : Bool
  dflt : Option ArgVal
deriving Repr

/-- Process one field: look it up, check/convert it, or apply the default /
required-ness rules when absent. -/
def validateField (compiles : String → Bool) (spec : FieldSpec) (args : Args) :
    Except String (Option (String × ArgVal)) :=
  match args.lookup spec.name with
  | some v =>
    match checkVal compiles spec.ty v with
    | some w => .ok (some (spec.name, w))
    | none => .error (spec.name ++ ": validation failed")
  | none =>
    match spec.dflt with
    | some d => .ok (some (spec.name, d))
    | none =>
      if spec.required then .error (spec.name ++ ": is required")
      else .ok none

/-- Run every field of a schema; the output object holds exactly the
fields the schema produced, in schema order (unknown input fields are
stripped). -/
def runSchema (compiles : String → Bool) : List FieldSpec → Args → Except String Args
  | [], _ => .ok []
  | spec :: rest, args =>
    match validateField compiles spec args, runSchema compiles rest args with
    | .ok hd, .ok tl => .ok (hd.toList ++ tl)
    | .error e, _ => .error e
    | .ok _, .error e => .error e

/- Shorthands mirroring the shared Joi schema constants. -/

def positiveInteger : FieldType := .intField 1 none
def mkReq (n : String) (t : FieldType) : FieldSpec := ⟨n, t, true, none⟩
def mkOpt (n : String) (t : FieldType) : FieldSpec := ⟨n, t, false, none⟩
def mkDef (n : String) (t : FieldType) (d : ArgVal) : FieldSpec := ⟨n, t, false, some d⟩
def pageNumberSpec : FieldSpec := mkDef "page" (.intField 1 none) (.num 1)
def pageSizeSpec : FieldSpec := mkDef "pageSize" (.intField 1 (some 500)) (.num 100)
def monthsBackSpec (d : ℚ) : FieldSpec := mkDef "monthsBack" (.intField 1 (some 24)) (.num d)
def provisionTypeSpec : FieldSpec :=
  mkOpt "provisionType"
    (.enumField ["None", "Seat", "Usage", "OneTime", "Crayon", "AzureMarketplace"])

/-- The tool-name → schema table of src/src/middleware/validation.ts. -/
def schemasList : List (String × List FieldSpec) :=
  [("get_organizations", []),
   ("get_invoice_profiles", [mkReq "organizationId" positiveInteger]),
   ("get_billing_statements",
     [mkReq "organizationId" positiveInteger,
      mkOpt "invoiceProfileId" positiveInteger,
      provisionTypeSpec,
      mkOpt "from" .dateField, mkOpt "to" .dateField,
      pageNumberSpec, pageSizeSpec]),
   ("get_grouped_billing_statements",
     [mkReq "organizationId" positiveInteger,
      mkOpt "invoiceProfileId" positiveInteger,
      provisionTypeSpec,
      mkOpt "from" .dateField, mkOpt "to" .dateField]),
   ("get_invoices",
     [mkReq "organizationId" positiveInteger, pageNumberSpec, pageSizeSpec]),
   ("get_subscriptions",
     [mkOpt "organizationId" positiveInteger, pageNumberSpec, pageSizeSpec]),
   ("get_cost_by_subscription",
     [mkReq "organizationId" positiveInteger,
      mkOpt "invoiceProfileId" positiveInteger, monthsBackSpec 3]),
   ("get_subscription_details", [mkReq "subscriptionId" positiveInteger]),
   ("get_subscription_tags", [mkReq "subscriptionId" positiveInteger]),
   ("update_subscription_tags",
     [mkReq "subscriptionId" positiveInteger, mkReq "tags" .tagsField]),
   ("track_costs_by_tags",
     [mkReq "organizationId" positiveInteger, monthsBackSpec 3]),
   ("get_customer_tenants", [mkOpt "organizationId" positiveInteger]),
   ("get_azure_subscriptions", [mkReq "customerTenantId" positiveInteger]),
   ("get_azure_plan_details", [mkReq "azurePlanId" positiveInteger]),
   ("get_azure_plan_subscriptions", [mkReq "azurePlanId" positiveInteger]),
   ("get_azure_usage",
     [mkReq "azurePlanId" positiveInteger, mkReq "subscriptionId" positiveInteger,
      mkReq "year" (.intField 2020 (some 2100)),
      mkReq "month" (.intField 1 (some 12)),
      mkDef "includeBom" .boolField (.bool false)]),
   ("get_cost_trends",
     [mkReq "organizationId" positiveInteger, monthsBackSpec 6]),
   ("detect_cost_anomalies",
     [mkReq "organizationId" positiveInteger, monthsBackSpec 3,
      mkDef "changeThresholdPercent" (.numField 1 100) (.num 25)]),
   ("analyze_costs_by_tags",
     [mkReq "organizationId" positiveInteger, monthsBackSpec 3]),
   ("find_similar_subscriptions_and_invoices",
     [mkReq "organizationId" positiveInteger,
      mkReq "namePattern" (.patternField 100)]),
   ("list_all_subscriptions_with_tags",
     [mkReq "organizationId" positiveInteger, pageNumberSpec, pageSizeSpec]),
   ("get_historical_costs",
     [mkReq "organizationId" positiveInteger, monthsBackSpec 6]),
   ("get_last_month_costs_by_tags", [mkReq "organizationId" positiveInteger])]

/-- The schema dispatch of `validateToolInput` together with the value its
`schema.validateAsync(args, { abortEarly: false, convert: true,
stripUnknown: true })` call resolves with — the normalized argument object
itself — or the rejection it propagates. -/
def validateAsyncResolved (compiles : String → Bool) (toolName : String) (args : Args) :
    Except String Args :=
  match schemasList.lookup toolName with
  | none => .error ("No validation schema for tool: " ++ toolName)
  | some specs => runSchema compiles specs args

/-- JS truthiness of an argument value (`undefined`, i.e. a failed
property lookup, is falsy). -/
def ArgVal.truthy : ArgVal → Bool
  | .num q => if q = 0 then false else true
  | .str s => if s = "" then false else true
  | .bool b => b
  | .obj _ => true

/-- `validateToolInput(toolName, args)` (src/src/middleware/validation.ts,
lines 178-201): throws when no schema exists, otherwise destructures
`const { value, error } = await schema.validateAsync(...)` — i.e. reads
the `value` and `error` properties of the object `validateAsync` resolves
with (`none` models JS `undefined`), throws on a truthy `error` property,
and returns the `value` property; a `validateAsync` rejection is wrapped
by the catch as an `Invalid input:` error. -/
def validateToolInput (compiles : String → Bool) (toolName : String) (args : Args) :
    Except String (Option ArgVal) :=
  match schemasList.lookup toolName with
  | none => .error ("No validation schema for tool: " ++ toolName)
  | some specs =>
    match runSchema compiles specs args with
    | .error e => .error ("Invalid input: " ++ e)
    | .ok out =>
      match List.lookup "error" out with
      | some ev =>
        if ev.truthy then .error "Invalid input: Validation error"
        else .ok (List.lookup "value" out)
      | none => .ok (List.lookup "value" out)

/-! ## Analytics engine (src/src/crayon-client.ts)

JS numbers are modelled as `ℚ` and `parseFloat(x.toFixed(2))` as decimal
rounding `round2`.  Dates are modelled post-parsing: a trend item carries
the `(getFullYear, getMonth()+1)` pair of its `StartDate` (or `none` when
`StartDate` is absent/falsy), and an anomaly item carries
`new Date(item.Date || 0).getTime()` as a natural number. -/

/-- `parseFloat(x.toFixed(2))`: round to 2 decimal places (round half up). -/
def round2 (q : ℚ) : ℚ := (⌊q * 100 + 1 / 2⌋ : ℤ) / 100

/-- `String(n).padStart(2, '0')`. -/
def pad2 (n : Nat) : String := if n < 10 then "0" ++ toString n else toString n

/-! ### `getCostTrends` -/

/-- One grouped billing statement as consumed by `getCostTrends`:
the parsed year/month of `StartDate` and `TotalSalesPrice?.Value`. -/
structure TrendItem where
  startYM : Option (Nat × Nat)
  totalSalesPriceValue : Option ℚ
deriving DecidableEq, Repr

/-- The `YYYY-MM` bucket key (or `"unknown"`). -/
def monthKey : Option (Nat × Nat) → String
  | some ym => toString ym.1 ++ "-" ++ pad2 ym.2
  | none => "unknown"

/-- `costsByMonth[k] = (costsByMonth[k] || 0) + cost`, preserving first
insertion order of the keys. -/
def addToBucket : List (String × ℚ) → String → ℚ → List (String × ℚ)
  | [], k, c => [(k, c)]
  | (k', c') :: rest, k, c =>
    if k' = k then (k', c' + c) :: rest else (k', c') :: addToBucket rest k c

def costsByMonth (items : List TrendItem) : List (String × ℚ) :=
  items.foldl
    (fun m it => addToBucket m (monthKey it.startYM) (it.totalSalesPriceValue.getD 0)) []

structure TrendPoint where
  month : String
  cost : ℚ
  previousCost : Option ℚ
  change : Option ℚ
  changePercent : Option ℚ
deriving DecidableEq, Repr

/-- The `idx > 0` arm of the trends `reduce`: every bucket after the first,
with `prev` the cost of the preceding bucket. -/
def mkTrendsTail (prev : ℚ) : List (String × ℚ) → List TrendPoint
  | [] => []
  | (m, c) :: rest =>
    { month := m, cost := c, previousCost := some prev, change := some (c - prev),
      changePercent := some (round2 (if prev = 0 then 0 else (c - prev) / prev * 100)) }
      :: mkTrendsTail c rest

def mkTrends : List (String × ℚ) → List TrendPoint
  | [] => []
  | (m, c) :: rest =>
    { month := m, cost := c, previousCost := none, change := none, changePercent := none }
      :: mkTrendsTail c rest

/-- `Object.entries(costsByMonth).sort()`: the JS default sort compares
entry strings `month + "," + cost`; since month keys are pairwise distinct
and `','` precedes every character occurring in a key, this coincides with
sorting by the month key under the JS string order. -/
def monthOrder (a b : String × ℚ) : Prop := strLeJs a.1 b.1 = true

instance : DecidableRel monthOrder :=
  fun a b => instDecidableEqBool (strLeJs a.1 b.1) true

structure TrendsResult where
  organizationId : Nat
  monthsBack : Nat
  trends : List TrendPoint
  totalMonths : Nat
  averageMonthlyCost : ℚ
  highestMonth : Option TrendPoint
  lowestMonth : Option TrendPoint
deriving DecidableEq, Repr

def getCostTrends (orgId monthsBack : Nat) (items : List TrendItem) : TrendsResult :=
  let trends := mkTrends (List.insertionSort monthOrder (costsByMonth items))
  { organizationId := orgId
    monthsBack := monthsBack
    trends := trends
    totalMonths := trends.length
    averageMonthlyCost :=
      if trends.length ≠ 0 then (trends.map (·.cost)).sum / (trends.length : ℚ) else 0
    highestMonth :=
      match trends with
      | [] => none
      | h :: t => some (t.foldl (fun mx p => if mx.cost < p.cost then p else mx) h)
    lowestMonth :=
      match trends with
      | [] => none
      | h :: t => some (t.foldl (fun mn p => if p.cost < mn.cost then p else mn) h) }

/-! ### `detectCostAnomalies` -/

/-- One grouped billing statement as consumed by `detectCostAnomalies`:
`SubscriptionId` (absent → the `'unknown'` group), the parsed epoch
milliseconds of `new Date(item.Date || 0)`, and `TotalSalesPrice`. -/
structure AnomItem where
  subscriptionId : Option Nat
  dateMs : Nat
  totalSalesPrice : Option ℚ
deriving DecidableEq, Repr

structure SubInfo where
  id : Nat
  name : String
deriving DecidableEq, Repr

/-- `item.SubscriptionId || 'unknown'` (`0` is falsy). -/
def subGroupKey : Option Nat → String
  | some n => if n = 0 then "unknown" else toString n
  | none => "unknown"

def addToGroup : List (String × List AnomItem) → String → AnomItem →
    List (String × List AnomItem)
  | [], k, it => [(k, [it])]
  | (k', l) :: rest, k, it =>
    if k' = k then (k', l ++ [it]) :: rest else (k', l) :: addToGroup rest k it

def groupBySub (items : List AnomItem) : List (String × List AnomItem) :=
  items.foldl (fun m it => addToGroup m (subGroupKey it.subscriptionId) it) []

structure Anomaly where
  subscriptionId : String
  subscriptionName : String
  previousCost : ℚ
  currentCost : ℚ
  change : ℚ
  changePercent : ℚ
  dateMs : Nat
deriving DecidableEq, Repr

/-- `subscriptions.Items?.find(s => s.Id.toString() === subId)?.Name || 'Unknown'`. -/
def anomalyName (subs : List SubInfo) (k : String) : String :=
  match subs.find? (fun s => toString s.id = k) with
  | some s => if s.name = "" then "Unknown" else s.name
  | none => "Unknown"

/-- The `for (let i = 1; ...)` adjacent-pair scan over one subscription's
date-sorted items. -/
def scanPairs (subs : List SubInfo) (threshold : ℚ) (k : String) :
    List AnomItem → List Anomaly
  | a :: b :: rest =>
    let previous := a.totalSalesPrice.getD 0
    let current := b.totalSalesPrice.getD 0
    (if 0 < previous ∧ threshold < |(current - previous) / previous * 100| then
      [{ subscriptionId := k
         subscriptionName := anomalyName subs k
         previousCost := previous
         currentCost := current
         change := current - previous
         changePercent := round2 ((current - previous) / previous * 100)
         dateMs := b.dateMs }]
     else []) ++ scanPairs subs threshold k (b :: rest)
  | _ => []

/-- `costs.sort((a, b) => new Date(a.Date||0).getTime() - new Date(b.Date||0).getTime())`. -/
def dateOrder (a b : AnomItem) : Prop := a.dateMs ≤ b.dateMs

instance : DecidableRel dateOrder := fun a b => Nat.decLe a.dateMs b.dateMs

instance : IsTotal AnomItem dateOrder := ⟨fun a b => Nat.le_total a.dateMs b.dateMs⟩
instance : IsTrans AnomItem dateOrder := ⟨fun _ _ _ h h' => Nat.le_trans h h'⟩

/-- `anomalies.sort((a, b) => Math.abs(b.changePercent) - Math.abs(a.changePercent))`. -/
def anomalyOrder (a b : Anomaly) : Prop := |b.changePercent| ≤ |a.changePercent|

instance : DecidableRel anomalyOrder :=
  fun a b => inferInstanceAs (Decidable (|b.changePercent| ≤ |a.changePercent|))
instance : IsTotal Anomaly anomalyOrder :=
  ⟨fun a b => le_total (|b.changePercent|) (|a.changePercent|)⟩
instance : IsTrans Anomaly anomalyOrder := ⟨fun _ _ _ h h' => le_trans h' h⟩

structure AnomResult where
  organizationId : Nat
  monthsBack : Nat
  changeThresholdPercent : ℚ
  anomaliesFound : Nat
  anomalies : List Anomaly
  totalSubscriptionsAnalyzed : Nat
  highestIncrease : Option Anomaly
  highestDecrease : Option Anomaly
deriving DecidableEq, Repr

def detectCostAnomalies (orgId monthsBack : Nat) (threshold : ℚ)
    (subs : List SubInfo) (items : List AnomItem) : AnomResult :=
  let groups := groupBySub items
  let found := (groups.map
    (fun g => scanPairs subs threshold g.1 (List.insertionSort dateOrder g.2))).flatten
  let sorted := List.insertionSort anomalyOrder found
  { organizationId := orgId
    monthsBack := monthsBack
    changeThresholdPercent := threshold
    anomaliesFound := sorted.length
    anomalies := sorted.take 50
    totalSubscriptionsAnalyzed := groups.length
    highestIncrease := sorted.find? (fun a => 0 < a.changePercent)
    highestDecrease := sorted.find? (fun a => a.changePercent < 0) }

/-! ### Tag-based allocation (`analyzeCostsByTags`, `getCostByTags`,
`getLastMonthCostsByTags`)

Per-subscription tag fetches are the function
`fetch : Nat → Except Unit (Option Tags)`; `.ok none` models the endpoint
returning `null`, `.error ()` a rejected promise.  `Promise.all` rejects
iff one of the mapped promises rejects, which is `List.mapM` over
`Except`. -/

abbrev Tags := List (String × String)

structure SubBasic where
  id : Nat
  name : String
deriving DecidableEq, Repr

structure SubWithTags where
  id : Nat
  name : String
  tags : Tags
deriving DecidableEq, Repr

/-- `getCostByTags` keeps the raw fetch result, so `tags` may be `null`. -/
structure SubWithTagsN where
  id : Nat
  name : String
  tags : Option Tags
deriving DecidableEq, Repr

/-- The tags a subscription ends up with in `analyzeCostsByTags` and
`getLastMonthCostsByTags`: `tags || {}` on success, `{}` on a caught
fetch error. -/
def fetchedTags (fetch : Nat → Except Unit (Option Tags)) (id : Nat) : Tags :=
  match fetch id with
  | .ok t => t.getD []
  | .error _ => []

/-- The tags value a subscription ends up with in `getCostByTags`:
the raw fetch result on success (possibly `null`), `null` on a caught
fetch error. -/
def fetchedTagsRaw (fetch : Nat → Except Unit (Option Tags)) (id : Nat) : Option Tags :=
  match fetch id with
  | .ok t => t
  | .error _ => none

/-- The per-subscription map body of `analyzeCostsByTags` /
`getLastMonthCostsByTags`: `try { tags || {} } catch { {} }`. -/
def resolveTagsAnalyze (fetch : Nat → Except Unit (Option Tags)) (sub : SubBasic) :
    Except Unit SubWithTags :=
  match fetch sub.id with
  | .ok t => .ok ⟨sub.id, sub.name, t.getD []⟩
  | .error _ => .ok ⟨sub.id, sub.name, []⟩

/-- The per-subscription map body of `getCostByTags`:
`try { {...sub, tags} } catch { {...sub, tags: null} }`. -/
def resolveTagsTrack (fetch : Nat → Except Unit (Option Tags)) (sub : SubBasic) :
    Except Unit SubWithTagsN :=
  match fetch sub.id with
  | .ok t => .ok ⟨sub.id, sub.name, t⟩
  | .error _ => .ok ⟨sub.id, sub.name, none⟩

/-- `new Map(entries).get(k)`: on duplicate keys the last entry wins. -/
def mapGet {α : Type} (entries : List (Nat × α)) : Option Nat → Option α
  | some i => (entries.reverse.find? (fun p => p.1 = i)).map (·.2)
  | none => none

/-- How `Promise.all` combines one settled entry with the rest: it rejects
as soon as one entry rejected, otherwise collects the values. -/
def promiseCons {α : Type} (x : Except Unit α) (rest : Except Unit (List α)) :
    Except Unit (List α) :=
  match x with
  | .error e => .error e
  | .ok v =>
    match rest with
    | .ok vs => .ok (v :: vs)
    | .error e => .error e

def promiseAll {α : Type} : List (Except Unit α) → Except Unit (List α)
  | [] => .ok []
  | x :: rest => promiseCons x (promiseAll rest)

/-- One billing line item as consumed by the tag-allocation loops. -/
structure TagBillingItem where
  subscriptionId : Option Nat
  totalSalesPrice : Option ℚ
deriving DecidableEq, Repr

structure TrackResult (β : Type) where
  subscriptions : List SubWithTagsN
  billingData : β
  organizationId : Nat
  monthsBack : Nat

def getCostByTags {β : Type} (fetch : Nat → Except Unit (Option Tags))
    (orgId monthsBack : Nat) (subs : List SubBasic) (billingData : β) :
    Except Unit (TrackResult β) :=
  match promiseAll (subs.map (resolveTagsTrack fetch)) with
  | .error e => .error e
  | .ok swt => .ok ⟨swt, billingData, orgId, monthsBack⟩

/-- `costsByTag[tagKey][tagVal] = (costsByTag[tagKey][tagVal] || 0) + cost`. -/
abbrev TagMap := List (String × List (String × ℚ))

def addTagCost : TagMap → String → String → ℚ → TagMap
  | [], k, v, c => [(k, [(v, c)])]
  | (k', vals) :: rest, k, v, c =>
    if k' = k then (k', addToBucket vals v c) :: rest
    else (k', vals) :: addTagCost rest k v c

/-- The aggregation loop of `analyzeCostsByTags`: every billing item adds
its full cost to every `(tagKey, tagValue)` pair of its subscription. -/
def costsByTagOf (tagsOf : Option Nat → Tags) (items : List TagBillingItem) : TagMap :=
  items.foldl (fun m it =>
    (tagsOf it.subscriptionId).foldl
      (fun m' p => addTagCost m' p.1 p.2 (it.totalSalesPrice.getD 0)) m) []

structure BreakdownEntry where
  value : String
  cost : ℚ
deriving DecidableEq, Repr

def breakdownOrder (a b : BreakdownEntry) : Prop := b.cost ≤ a.cost

instance : DecidableRel breakdownOrder :=
  fun a b => inferInstanceAs (Decidable (b.cost ≤ a.cost))
instance : IsTotal BreakdownEntry breakdownOrder := ⟨fun a b => le_total b.cost a.cost⟩
instance : IsTrans BreakdownEntry breakdownOrder := ⟨fun _ _ _ h h' => le_trans h' h⟩

structure TagBreakdown where
  tag : String
  breakdown : List BreakdownEntry
  total : ℚ
deriving DecidableEq, Repr

/-- The result shaping of `analyzeCostsByTags`: values sorted by
descending cost, `total` the sum of the raw (unsorted) bucket values. -/
def mkCostBreakdown (m : TagMap) : List TagBreakdown :=
  m.map (fun kv =>
    { tag := kv.1
      breakdown := List.insertionSort breakdownOrder (kv.2.map (fun vc => ⟨vc.1, vc.2⟩))
      total := (kv.2.map (·.2)).sum })

structure AnalyzeResult where
  organizationId : Nat
  monthsBack : Nat
  subscriptionsAnalyzed : Nat
  costBreakdown : List TagBreakdown
deriving DecidableEq, Repr

def analyzeCostsByTags (fetch : Nat → Except Unit (Option Tags))
    (orgId monthsBack : Nat) (subs : List SubBasic) (items : List TagBillingItem) :
    Except Unit AnalyzeResult :=
  match promiseAll (subs.map (resolveTagsAnalyze fetch)) with
  | .error e => .error e
  | .ok swt =>
    let tagsOf := fun sid => (mapGet (swt.map fun s => (s.id, s.tags)) sid).getD []
    .ok { organizationId := orgId
          monthsBack := monthsBack
          subscriptionsAnalyzed := swt.length
          costBreakdown := mkCostBreakdown (costsByTagOf tagsOf items) }

/-! ### `getLastMonthCostsByTags` -/

structure LMValue where
  cost : ℚ
  subscriptions : List String
deriving DecidableEq, Repr

abbrev LMMap := List (String × List (String × LMValue))

/-- Inner update: create `{cost: 0, subscriptions: []}` if absent, then
`cost += c` and push the subscription name if not already present. -/
def addLMVal : List (String × LMValue) → String → ℚ → String →
    List (String × LMValue)
  | [], v, c, n => [(v, ⟨c, [n]⟩)]
  | (v', val) :: rest, v, c, n =>
    if v' = v then
      (v', ⟨val.cost + c,
            if n ∈ val.subscriptions then val.subscriptions
            else val.subscriptions ++ [n]⟩) :: rest
    else (v', val) :: addLMVal rest v c n

def addLMCost : LMMap → String → String → ℚ → String → LMMap
  | [], k, v, c, n => [(k, addLMVal [] v c n)]
  | (k', vals) :: rest, k, v, c, n =>
    if k' = k then (k', addLMVal vals v c n) :: rest
    else (k', vals) :: addLMCost rest k v c n

/-- `` subIdToName.get(subId) || `Unknown (${subId})` ``. -/
def lmUnknownName : Option Nat → String
  | some i => "Unknown (" ++ toString i ++ ")"
  | none => "Unknown (undefined)"

def lmNameOf (names : List (Nat × String)) (sid : Option Nat) : String :=
  match mapGet names sid with
  | some n => if n = "" then lmUnknownName sid else n
  | none => lmUnknownName sid

def lmFold (tagsOf : Option Nat → Tags) (nameOf : Option Nat → String)
    (items : List TagBillingItem) : LMMap :=
  items.foldl (fun m it =>
    (tagsOf it.subscriptionId).foldl
      (fun m' p =>
        addLMCost m' p.1 p.2 (it.totalSalesPrice.getD 0) (nameOf it.subscriptionId)) m) []

structure LMEntry where
  value : String
  cost : ℚ
  subscriptionCount : Nat
  subscriptions : List String
deriving DecidableEq, Repr

def lmEntryOrder (a b : LMEntry) : Prop := b.cost ≤ a.cost

instance : DecidableRel lmEntryOrder :=
  fun a b => inferInstanceAs (Decidable (b.cost ≤ a.cost))
instance : IsTotal LMEntry lmEntryOrder := ⟨fun a b => le_total b.cost a.cost⟩
instance : IsTrans LMEntry lmEntryOrder := ⟨fun _ _ _ h h' => le_trans h' h⟩

structure LMTag where
  tag : String
  total : ℚ
  breakdown : List LMEntry
deriving DecidableEq, Repr

def lmTagOrder (a b : LMTag) : Prop := b.total ≤ a.total

instance : DecidableRel lmTagOrder :=
  fun a b => inferInstanceAs (Decidable (b.total ≤ a.total))
instance : IsTotal LMTag lmTagOrder := ⟨fun a b => le_total b.total a.total⟩
instance : IsTrans LMTag lmTagOrder := ⟨fun _ _ _ h h' => le_trans h' h⟩

/-- Result shaping of `getLastMonthCostsByTags`: breakdown sorted by
descending cost, `total` summed over the (sorted) breakdown, tags sorted
by descending total. -/
def mkLMBreakdown (m : LMMap) : List LMTag :=
  List.insertionSort lmTagOrder (m.map (fun kv =>
    let breakdown := List.insertionSort lmEntryOrder (kv.2.map (fun vd =>
      { value := vd.1, cost := vd.2.cost,
        subscriptionCount := vd.2.subscriptions.length,
        subscriptions := vd.2.subscriptions }))
    { tag := kv.1, total := (breakdown.map (·.cost)).sum, breakdown := breakdown }))

structure LMResult where
  organizationId : Nat
  totalCost : ℚ
  tagsCount : Nat
  costByTags : List LMTag
deriving DecidableEq, Repr

def getLastMonthCostsByTags (fetch : Nat → Except Unit (Option Tags))
    (orgId : Nat) (subs : List SubBasic) (items : List TagBillingItem) :
    Except Unit LMResult :=
  match promiseAll (subs.map (resolveTagsAnalyze fetch)) with
  | .error e => .error e
  | .ok swt =>
    let tagsOf := fun sid => (mapGet (swt.map fun s => (s.id, s.tags)) sid).getD []
    let nameOf := fun sid => lmNameOf (swt.map fun s => (s.id, s.name)) sid
    let breakdown := mkLMBreakdown (lmFold tagsOf nameOf items)
    .ok { organizationId := orgId
          totalCost := (breakdown.map (·.total)).sum
          tagsCount := breakdown.length
          costByTags := breakdown }

/-! ### `findSimilarSubscriptionsAndInvoices` and its tool dispatch

The JS regex scan `new RegExp(namePattern, 'i').test(name)` is abstracted
as `matchesFn : String → String → Bool` (pattern, name). -/

structure InvoiceRec where
  subscriptionId : Option Nat
  dateMs : Nat
deriving DecidableEq, Repr

def invoiceDateDesc (a b : InvoiceRec) : Prop := b.dateMs ≤ a.dateMs

instance : DecidableRel invoiceDateDesc := fun a b => Nat.decLe b.dateMs a.dateMs
instance : IsTotal InvoiceRec invoiceDateDesc := ⟨fun a b => Nat.le_total b.dateMs a.dateMs⟩
instance : IsTrans InvoiceRec invoiceDateDesc := ⟨fun _ _ _ h h' => Nat.le_trans h' h⟩

structure FoundSub where
  subscription : SubBasic
  tags : Option Tags
  lastInvoice : Option InvoiceRec
  totalInvoices : Nat
  recentInvoices : List InvoiceRec
deriving DecidableEq, Repr

structure FindSimilarResult where
  organizationId : ℚ
  searchPattern : String
  matchesFound : Nat
  results : List FoundSub
deriving DecidableEq, Repr

def findSimilarSubscriptionsAndInvoices (fetch : Nat → Except Unit (Option Tags))
    (matchesFn : String → String → Bool) (orgId : ℚ) (namePattern : String)
    (subs : List SubBasic) (invoices : List InvoiceRec) : FindSimilarResult :=
  let matching := subs.filter (fun sub => matchesFn namePattern sub.name)
  let results := matching.map (fun sub =>
    let subInvoices := List.insertionSort invoiceDateDesc
      (invoices.filter (fun inv => inv.subscriptionId = some sub.id))
    let tags : Option Tags :=
      match fetch sub.id with
      | .ok t => t
      | .error _ => some []
    { subscription := sub
      tags := tags
      lastInvoice := subInvoices.head?
      totalInvoices := subInvoices.length
      recentInvoices := subInvoices.take 5 })
  { organizationId := orgId
    searchPattern := namePattern
    matchesFound := matching.length
    results := results }

/-- The `find_similar_subscriptions_and_invoices` arm of the tool
dispatcher (src/unnamed/part_000): the schema pipeline runs first, and
only when it succeeds is the client operation invoked with the validated
arguments — a validation failure is caught before any name scan. -/
def findSimilarToolCall (compiles : String → Bool)
    (fetch : Nat → Except Unit (Option Tags)) (matchesFn : String → String → Bool)
    (args : Args) (subs : List SubBasic) (invoices : List InvoiceRec) :
    Except String FindSimilarResult :=
  match validateAsyncResolved compiles "find_similar_subscriptions_and_invoices" args with
  | .error e => .error e
  | .ok v =>
    match v.lookup "organizationId", v.lookup "namePattern" with
    | some (.num oid), some (.str p) =>
      .ok (findSimilarSubscriptionsAndInvoices fetch matchesFn oid p subs invoices)
    | _, _ => .error "Invalid arguments"

/-! ## Specification-side predicates and lookups used to state the claims -/

/-- Relation between two consecutive trend points, as the specification
states it. -/
def trendStep (a b : TrendPoint) : Prop :=
  b.previousCost = some a.cost ∧ b.change = some (b.cost - a.cost) ∧
    b.changePercent = some (round2 (if a.cost = 0 then 0 else (b.cost - a.cost) / a.cost * 100))

/-- Specification-side total: the cost a `(tagKey, tagValue)` pair should
accumulate — every billing line item whose subscription carries that pair
contributes its full, undivided cost. -/
def tagPairCost (tagsOf : Option Nat → Tags) (items : List TagBillingItem)
    (k v : String) : ℚ :=
  (items.map (fun it =>
    if (k, v) ∈ tagsOf it.subscriptionId then it.totalSalesPrice.getD 0 else 0)).sum

/-- Lookup of a value bucket (0 when absent). -/
def getVal : List (String × ℚ) → String → ℚ
  | [], _ => 0
  | (v', c) :: rest, v => if v' = v then c else getVal rest v

/-- Lookup of a `(tagKey, tagValue)` bucket in a `TagMap` (0 when absent). -/
def getCost2 : TagMap → String → String → ℚ
  | [], _, _ => 0
  | (k', vals) :: rest, k, v => if k' = k then getVal vals v else getCost2 rest k v

/-- Lookup of a value bucket's cost in the last-month map (0 when absent). -/
def getLMVal : List (String × LMValue) → String → ℚ
  | [], _ => 0
  | (v', val) :: rest, v => if v' = v then val.cost else getLMVal rest v

def getLMCost : LMMap → String → String → ℚ
  | [], _, _ => 0
  | (k', vals) :: rest, k, v => if k' = k then getLMVal vals v else getLMCost rest k v

/-- The entry a single schema field contributes to the normalized output
(`none` when the field is absent, optional and without a default, or when
the field fails — failure is separated out by `runSchema`). -/
def fieldResult (compiles : String → Bool) (spec : FieldSpec) (args : Args) :
    Option (String × ArgVal) :=
  match validateField compiles spec args with
  | .ok o => o
  | .error _ => none

/-! ## Authentication middleware (`authenticateRequest`, src/src/middleware/auth.ts) -/

structure UserCtx where
  id : String
  email : String
  organizations : List Nat
  roles : List String
deriving DecidableEq, Repr

/-- Outcome of the middleware: either `next()` was called with `req.user`
set, or a status code and error payload were sent. -/
inductive AuthOutcome where
  | next : UserCtx → AuthOutcome
  | httpError : Nat → String → AuthOutcome
deriving DecidableEq, Repr

/-- JS falsiness of an optional string (`undefined` or `""`). -/
def falsyStr : Option String → Bool
  | none => true
  | some s => decide (s = "")

/-- Translation of `authenticateRequest`.  `authEnabledEnv` is
`process.env.AUTH_ENABLED`, `validToken` is `process.env.AUTH_TOKEN`,
`bodyMethod` is `req.body?.method`. -/
def authenticateRequest (authEnabledEnv : Option String) (method : String)
    (bodyMethod : Option String) (authHeader : Option String)
    (validToken : Option String) : AuthOutcome :=
  if authEnabledEnv = some "false" then
    .next ⟨"dev-user", "dev@example.com", [4040561, 4019092], ["admin"]⟩
  else if falsyStr authHeader then
    if method = "POST" ∧ bodyMethod = some "initialize" then
      .next ⟨"anonymous", "anonymous@crayon-cost-mcp.local", [4040561, 4019092], ["viewer"]⟩
    else
      .httpError 401 "Unauthorized: Missing authorization header"
  else
    let h := authHeader.getD ""
    let token := if strStartsWith h "Bearer " then strDrop h 7 else h
    if token = "" then
      .httpError 401 "Unauthorized: Missing authentication token"
    else if falsyStr validToken then
      .httpError 500 "Server authentication not configured"
    else if token ≠ validToken.getD "" then
      .httpError 401 "Invalid authentication token"
    else
      .next ⟨"api-user", "api@crayon-cost-mcp.local", [4040561, 4019092], ["admin"]⟩

/-! # Theorems settling the claims -/

/-- C10: for every request whose bearer token equals the configured static
`AUTH_TOKEN`, `authenticateRequest` assigns the same fixed principal —
id `api-user`, roles `['admin']`, organization allow-list
`[4040561, 4019092]` — independent of the token's contents: the allow-list
is a hardcoded constant, not derived from the credential. -/
theorem C10_auth_fixed_principal (env : Option String) (method : String)
    (bodyMethod : Option String) (h vt : String)
    (henv : env ≠ some "false")
    (htok : (if strStartsWith h "Bearer " then strDrop h 7 else h) = vt)
    (hvt : vt ≠ "") :
    authenticateRequest env method bodyMethod (some h) (some vt) =
      .next ⟨"api-user", "api@crayon-cost-mcp.local", [4040561, 4019092], ["admin"]⟩ := by
  have hh : h ≠ "" := by
    intro he
    subst he
    rw [show strStartsWith "" "Bearer " = false from by decide] at htok
    simp at htok
    exact hvt htok.symm
  simp only [authenticateRequest, if_neg henv]
  rw [if_neg (by simp [falsyStr, hh]), if_neg (by simp [Option.getD, htok, hvt]),
    if_neg (by simp [falsyStr, hvt])]
  simp [Option.getD, htok]

/-- C10 witness at a concrete request. -/
theorem C10_auth_fixed_principal_witness :
    authenticateRequest none "POST" none (some "Bearer s3cret") (some "s3cret") =
      .next ⟨"api-user", "api@crayon-cost-mcp.local", [4040561, 4019092], ["admin"]⟩ :=
  C10_auth_fixed_principal none "POST" none "Bearer s3cret" "s3cret"
    (by decide) (by decide) (by decide)

/-- C7 counterexample: the claim says `execute` returns the supplied
fallback on failure, but a supplied falsy fallback (here the number `0`)
is not returned — `if (fallback)` re-throws the original error instead. -/
theorem C7_counterexample :
    breakerExecute (.error "upstream failure") (some (JVal.vNum 0)) =
        .error "upstream failure" ∧
      breakerExecute (.error "upstream failure") (some (JVal.vNum 0)) ≠
        .ok (JVal.vNum 0) := by
  constructor
  · rfl
  · intro hcontra
    simp [breakerExecute, JVal.truthy] at hcontra

/-- C7 amended: on success `execute` returns the operation's result; on
failure it re-throws the original error when no fallback is supplied, and
when a fallback is supplied it returns it only if the fallback is truthy —
a falsy fallback behaves as if absent and the original error is
re-thrown. -/
theorem C7_breaker_execute (e : String) :
    (∀ (v : JVal) (fb : Option JVal), breakerExecute (.ok v) fb = .ok v) ∧
    breakerExecute (.error e) none = .error e ∧
    (∀ f : JVal, f.truthy = true → breakerExecute (.error e) (some f) = .ok f) ∧
    (∀ f : JVal, f.truthy = false → breakerExecute (.error e) (some f) = .error e) := by
  refine ⟨fun v fb => rfl, rfl, fun f hf => ?_, fun f hf => ?_⟩ <;>
    simp [breakerExecute, hf]

/-- C7 witness at concrete operations and fallbacks. -/
theorem C7_breaker_execute_witness :
    breakerExecute (.ok (JVal.vNum 7)) none = .ok (JVal.vNum 7) ∧
    breakerExecute (.error "down") none = .error "down" ∧
    breakerExecute (.error "down") (some (JVal.vStr "cached")) = .ok (JVal.vStr "cached") ∧
    breakerExecute (.error "down") (some (JVal.vBool false)) = .error "down" :=
  ⟨(C7_breaker_execute "down").1 _ _, (C7_breaker_execute "down").2.1,
   (C7_breaker_execute "down").2.2.1 _ (by decide),
   (C7_breaker_execute "down").2.2.2 _ (by decide)⟩

/-- Helper for C5: the source sanitizer agrees with the rule-table
specification and only ever emits one of the fixed outcome strings. -/
theorem sanitize_eq_spec_mem (m : String) :
    sanitizeErrorMessage m = sanitizeSpec m ∧ sanitizeErrorMessage m ∈ sanitizeOutcomes := by
  unfold sanitizeErrorMessage sanitizeSpec sanitizeRules sanitizeOutcomes
  cases h1 : strIncludes m "token" <;>
    cases h2 : strIncludes m "credential" <;>
    cases h3 : (strIncludes m "401" || strIncludes m "Unauthorized") <;>
    cases h4 : (strIncludes m "403" || strIncludes m "Forbidden") <;>
    cases h5 : (strIncludes m "404" || strIncludes m "not found") <;>
    cases h6 : strIncludes m "timeout" <;>
    cases h7 : strIncludes m "Circuit" <;>
    cases h8 : strIncludes m "ECONNREFUSED" <;>
    simp [h1, h2, h3, h4, h5, h6, h7, h8]

/-- C5 counterexample: the claim maps any message containing `"token"` to
`"Authentication failed"`, but the code returns `"Authentication error"`
for such messages. -/
theorem C5_counterexample :
    sanitizeErrorMessage "invalid token" = "Authentication error" ∧
      sanitizeErrorMessage "invalid token" ≠ "Authentication failed" := by
  constructor
  · rfl
  · intro hcontra
    rw [show sanitizeErrorMessage "invalid token" = "Authentication error" from rfl] at hcontra
    simp at hcontra

/-- C5 amended: a tool failure is returned with the sanitized message
chosen by the first matching rule, in order: `token` → `Authentication
error`; `credential`, `401`, `Unauthorized` → `Authentication failed`;
`403`, `Forbidden` → `Access denied`; `404`, `not found` → `Resource not
found`; `timeout` → the generic timeout message; `Circuit` → `Service
temporarily unavailable`; `ECONNREFUSED` → `Service connection failed`;
otherwise a generic message.  The sanitized message always belongs to the
fixed outcome set (so raw upstream error text never reaches the caller),
and every failure response carries the generated correlation
identifier. -/
theorem C5_sanitized_tool_failure (message name uuid : String) :
    handleToolFailure name uuid message =
      { error := sanitizeSpec message, tool := name, requestId := uuid, isError := true } ∧
    (handleToolFailure name uuid message).error ∈ sanitizeOutcomes ∧
    (handleToolFailure name uuid message).requestId = uuid := by
  obtain ⟨heq, hmem⟩ := sanitize_eq_spec_mem message
  refine ⟨?_, ?_, rfl⟩
  · simp [handleToolFailure, heq]
  · simpa [handleToolFailure] using hmem

/-- C6: `validateRegexPattern` rejects `"(.*)+"` (denylist), rejects every
pattern longer than 100 characters (hence a 150-character pattern),
rejects patterns that fail to compile, and accepts `"sub-prod.*"` when it
compiles; and when validation rejects, the `find_similar` tool call fails
before any subscription name is scanned (for every subscription list, the
dispatcher returns an error). -/
theorem C6_regex_validation (compiles : String → Bool) :
    (validateRegexPattern compiles "(.*)+").isOk = false ∧
    (∀ p : String, 100 < p.length → (validateRegexPattern compiles p).isOk = false) ∧
    (∀ p : String, compiles p = false → (validateRegexPattern compiles p).isOk = false) ∧
    (compiles "sub-prod.*" = true →
      validateRegexPattern compiles "sub-prod.*" = .ok "sub-prod.*") ∧
    (∀ (fetch : Nat → Except Unit (Option Tags)) (matchesFn : String → String → Bool)
        (args : Args) (p : String) (subs : List SubBasic) (invoices : List InvoiceRec),
      args.lookup "namePattern" = some (.str p) →
      (validateRegexPattern compiles p).isOk = false →
      (findSimilarToolCall compiles fetch matchesFn args subs invoices).isOk = false) := by
  refine ⟨?_, ?_, ?_, ?_, ?_⟩
  · have hd : anyDangerous ("(.*)+".toList) = true := by decide
    have hl : ¬ (100 < ("(.*)+" : String).length) := by decide
    unfold validateRegexPattern
    rw [if_neg hl, if_pos hd]
    rfl
  · intro p hp
    simp [validateRegexPattern, hp, Except.isOk, Except.toBool]
  · intro p hc
    unfold validateRegexPattern
    split
    · rfl
    · split
      · rfl
      · simp [hc, Except.isOk, Except.toBool]
  · intro hc
    have hd : anyDangerous ("sub-prod.*".toList) = false := by decide
    have hl : ¬ (100 < ("sub-prod.*" : String).length) := by decide
    simp only [validateRegexPattern, if_neg hl, String.toList] at *
    rw [if_neg (by simp [hd]), if_pos hc]
  · intro fetch matchesFn args p subs invoices hlook hbad
    have hchk : checkVal compiles (.patternField 100) (.str p) = none := by
      simp [checkVal, hbad]
    have hfield : validateField compiles (mkReq "namePattern" (.patternField 100)) args =
        .error "namePattern: validation failed" := by
      simp [validateField, mkReq, hlook, hchk]
    have hsch : schemasList.lookup "find_similar_subscriptions_and_invoices" =
        some [mkReq "organizationId" positiveInteger,
              mkReq "namePattern" (.patternField 100)] := rfl
    unfold findSimilarToolCall validateAsyncResolved
    rw [hsch]
    rcases horg : validateField compiles (mkReq "organizationId" positiveInteger) args
      with e | v
    · simp [runSchema, horg, Except.isOk, Except.toBool]
    · simp [runSchema, horg, hfield, Except.isOk, Except.toBool]

set_option maxRecDepth 4000 in
/-- C6 witness: concrete rejections and acceptance.  The compile oracle is
instantiated as the constant `true` function (and constant `false` for the
fails-to-compile conjunct), and the blocked pipeline is exercised on a
concrete argument object. -/
theorem C6_regex_validation_witness :
    (validateRegexPattern (fun _ => true) "(.*)+").isOk = false ∧
    (validateRegexPattern (fun _ => true) (String.mk (List.replicate 150 'a'))).isOk = false ∧
    (validateRegexPattern (fun _ => false) "sub-prod.*").isOk = false ∧
    validateRegexPattern (fun _ => true) "sub-prod.*" = .ok "sub-prod.*" ∧
    (findSimilarToolCall (fun _ => true) (fun _ => .ok none) (fun _ _ => true)
        [("organizationId", .num 1), ("namePattern", .str "(.*)+")] [⟨1, "prod"⟩] []).isOk
      = false := by
  obtain ⟨ha, hb, hc, hd, he⟩ := C6_regex_validation (fun _ => true)
  refine ⟨ha, hb _ (by decide), (C6_regex_validation (fun _ => false)).2.2.1 _ rfl,
    hd rfl, he _ _ _ "(.*)+" _ _ rfl ha⟩

/-- Helper for C3: every anomaly emitted by the adjacent-pair scan has a
strictly positive previous cost (pairs without a positive baseline are
skipped). -/
theorem scanPairs_prev_pos (subs : List SubInfo) (th : ℚ) (k : String) :
    ∀ (l : List AnomItem) (x : Anomaly), x ∈ scanPairs subs th k l → 0 < x.previousCost
  | [], x, hx => by simp [scanPairs] at hx
  | [a], x, hx => by simp [scanPairs] at hx
  | a :: b :: rest, x, hx => by
    rw [scanPairs] at hx
    rcases List.mem_append.mp hx with h | h
    · split at h
      next hcond =>
        obtain rfl := List.mem_singleton.mp h
        exact hcond.1
      next => simp at h
    · exact scanPairs_prev_pos subs th k (b :: rest) x h

/-- C3: the anomaly list is sorted by non-increasing `abs(changePercent)`,
holds at most 50 entries, and every entry has a strictly positive (in
particular nonzero) previous cost — adjacent pairs without a positive
baseline are never flagged. -/
theorem C3_anomalies_sorted_bounded (orgId monthsBack : Nat) (threshold : ℚ)
    (subs : List SubInfo) (items : List AnomItem) :
    List.Pairwise anomalyOrder
        (detectCostAnomalies orgId monthsBack threshold subs items).anomalies ∧
      (detectCostAnomalies orgId monthsBack threshold subs items).anomalies.length ≤ 50 ∧
      ∀ a ∈ (detectCostAnomalies orgId monthsBack threshold subs items).anomalies,
        0 < a.previousCost ∧ a.previousCost ≠ 0 := by
  refine ⟨?_, ?_, ?_⟩
  · exact List.Pairwise.sublist (List.take_sublist _ _)
      (List.sorted_insertionSort anomalyOrder _)
  · exact List.length_take_le _ _
  · intro a ha
    have h1 : a ∈ List.insertionSort anomalyOrder
        ((groupBySub items).map
          (fun g => scanPairs subs threshold g.1 (List.insertionSort dateOrder g.2))).flatten :=
      List.mem_of_mem_take ha
    have h2 := (List.perm_insertionSort anomalyOrder _).mem_iff.mp h1
    obtain ⟨l, hl, hal⟩ := List.mem_flatten.mp h2
    obtain ⟨g, _, rfl⟩ := List.mem_map.mp hl
    have hp := scanPairs_prev_pos subs threshold g.1 _ a hal
    exact ⟨hp, ne_of_gt hp⟩

/-- C3 witness: a concrete pair of billing periods for one subscription,
producing one anomaly with positive previous cost. -/
theorem C3_anomalies_sorted_bounded_witness :
    List.Pairwise anomalyOrder
        (detectCostAnomalies 1 3 25 [⟨1, "prod"⟩]
          [⟨some 1, 0, some 100⟩, ⟨some 1, 1, some 150⟩]).anomalies ∧
      (detectCostAnomalies 1 3 25 [⟨1, "prod"⟩]
          [⟨some 1, 0, some 100⟩, ⟨some 1, 1, some 150⟩]).anomalies.length ≤ 50 ∧
      (0 < (⟨"1", "prod", 100, 150, 50, 50, 1⟩ : Anomaly).previousCost ∧
        (⟨"1", "prod", 100, 150, 50, 50, 1⟩ : Anomaly).previousCost ≠ 0) := by
  obtain ⟨h1, h2, h3⟩ := C3_anomalies_sorted_bounded 1 3 25 [⟨1, "prod"⟩]
    [⟨some 1, 0, some 100⟩, ⟨some 1, 1, some 150⟩]
  refine ⟨h1, h2, h3 ⟨"1", "prod", 100, 150, 50, 50, 1⟩ ?_⟩
  have ht : toString (1 : Nat) = "1" := by decide
  norm_num [detectCostAnomalies, groupBySub, addToGroup, subGroupKey, scanPairs,
    anomalyName, round2, List.find?, List.insertionSort, List.orderedInsert,
    dateOrder, anomalyOrder, List.take, ht]
  rw [if_neg (by decide : ¬("prod" = ""))]

/-- The code-point order on strings is asymmetric. -/
theorem clLt_asymm : ∀ x y, clLt x y = true → clLt y x = false
  | [], [], h => by simp [clLt] at h
  | [], _ :: _, _ => by simp [clLt]
  | _ :: _, [], h => by simp [clLt] at h
  | a :: as, b :: bs, h => by
    rw [clLt] at h ⊢
    by_cases h1 : a < b
    · rw [if_neg (lt_asymm h1), if_pos h1]
    · by_cases h2 : b < a
      · rw [if_neg h1, if_pos h2] at h
        exact absurd h (by simp)
      · rw [if_neg h1, if_neg h2] at h
        rw [if_neg h2, if_neg h1]
        exact clLt_asymm as bs h

/-- Two mutually non-lesser code-point lists are equal. -/
theorem clLt_conn : ∀ x y, clLt x y = false → clLt y x = false → x = y
  | [], [], _, _ => rfl
  | [], _ :: _, h, _ => by simp [clLt] at h
  | _ :: _, [], _, h => by simp [clLt] at h
  | a :: as, b :: bs, h1, h2 => by
    rw [clLt] at h1 h2
    by_cases hab : a < b
    · rw [if_pos hab] at h1
      exact absurd h1 (by simp)
    · by_cases hba : b < a
      · rw [if_pos hba] at h2
        exact absurd h2 (by simp)
      · rw [if_neg hab, if_neg hba] at h1
        rw [if_neg hba, if_neg hab] at h2
        rw [le_antisymm (not_lt.mp hba) (not_lt.mp hab), clLt_conn as bs h1 h2]

/-- Transitivity of the non-strict code-point order. -/
theorem clLt_trans_false : ∀ x y z, clLt y x = false → clLt z y = false → clLt z x = false
  | [], _, z, _, _ => by cases z <;> rfl
  | _ :: _, [], _, h1, _ => by simp [clLt] at h1
  | _ :: _, _ :: _, [], _, h2 => by simp [clLt] at h2
  | a :: as, b :: bs, c :: cs, h1, h2 => by
    rw [clLt] at h1 h2 ⊢
    by_cases hba : b < a
    · rw [if_pos hba] at h1
      exact absurd h1 (by simp)
    by_cases hcb : c < b
    · rw [if_pos hcb] at h2
      exact absurd h2 (by simp)
    have hab : a ≤ b := not_lt.mp hba
    have hbc : b ≤ c := not_lt.mp hcb
    rw [if_neg (not_lt.mpr (le_trans hab hbc))]
    by_cases hac : a < c
    · rw [if_pos hac]
    · have hac' : a = c := le_antisymm (le_trans hab hbc) (not_lt.mp hac)
      have hb : a = b := le_antisymm hab (hac' ▸ hbc)
      rw [if_neg hba, if_neg (show ¬ a < b by rw [hb]; exact lt_irrefl b)] at h1
      rw [if_neg hcb, if_neg (show ¬ b < c by rw [← hb, hac']; exact lt_irrefl c)] at h2
      rw [if_neg hac]
      exact clLt_trans_false as bs cs h1 h2

instance : IsTotal (String × ℚ) monthOrder := by
  constructor
  intro a b
  unfold monthOrder strLeJs
  by_cases h : strLtJs b.1 a.1 = true
  · right
    unfold strLtJs at h ⊢
    simp only [String.toList] at h ⊢
    simp [clLt_asymm _ _ h]
  · left
    rw [Bool.not_eq_true] at h
    simp [h]

instance : IsTrans (String × ℚ) monthOrder := by
  constructor
  intro a b c hab hbc
  unfold monthOrder strLeJs strLtJs at *
  rw [Bool.not_eq_true'] at hab hbc ⊢
  exact clLt_trans_false _ _ _ hab hbc

/-- Non-strictly ordered and distinct strings are strictly ordered. -/
theorem strLt_of_le_ne {a b : String} (hle : strLeJs a b = true) (hne : a ≠ b) :
    strLtJs a b = true := by
  unfold strLeJs at hle
  rw [Bool.not_eq_true'] at hle
  by_cases h : strLtJs a b = true
  · exact h
  · exfalso
    rw [Bool.not_eq_true] at h
    unfold strLtJs at h hle
    apply hne
    exact congrArg String.mk (clLt_conn _ _ h hle)

/-- Helper for C2: trend points carry the bucket keys as months. -/
theorem mkTrendsTail_months : ∀ (prev : ℚ) (l : List (String × ℚ)),
    (mkTrendsTail prev l).map TrendPoint.month = l.map Prod.fst
  | _, [] => rfl
  | _, (m, c) :: rest => by
    rw [mkTrendsTail]
    simpa using mkTrendsTail_months c rest

theorem mkTrends_months : ∀ l : List (String × ℚ),
    (mkTrends l).map TrendPoint.month = l.map Prod.fst
  | [] => rfl
  | (m, c) :: rest => by
    rw [mkTrends]
    simpa using mkTrendsTail_months c rest

/-- Helper for C2: consecutive trend points satisfy the month-over-month
relation. -/
theorem chain'_mkTrendsTail : ∀ (p : TrendPoint) (c : ℚ) (l : List (String × ℚ)),
    p.cost = c → List.Chain' trendStep (p :: mkTrendsTail c l)
  | _, _, [], _ => by simp [mkTrendsTail]
  | p, c, (m, c') :: rest, h => by
    rw [mkTrendsTail]
    refine List.chain'_cons.mpr ⟨?_, chain'_mkTrendsTail _ c' rest rfl⟩
    subst h
    exact ⟨rfl, rfl, rfl⟩

theorem chain'_mkTrends : ∀ l : List (String × ℚ), List.Chain' trendStep (mkTrends l)
  | [] => by simp [mkTrends]
  | (m, c) :: rest => by
    rw [mkTrends]
    exact chain'_mkTrendsTail _ c rest rfl

/-- Helper for C2: bucket keys of `addToBucket`. -/
theorem addToBucket_keys : ∀ (m : List (String × ℚ)) (k : String) (c : ℚ),
    (addToBucket m k c).map Prod.fst =
      if k ∈ m.map Prod.fst then m.map Prod.fst else m.map Prod.fst ++ [k]
  | [], k, c => by simp [addToBucket]
  | (k', c') :: rest, k, c => by
    rw [addToBucket]
    by_cases h : k' = k
    · simp [h]
    · rw [if_neg h]
      simp only [List.map_cons]
      rw [addToBucket_keys rest k c]
      by_cases hm : k ∈ rest.map Prod.fst
      · rw [if_pos hm, if_pos (by simp [hm])]
      · rw [if_neg hm, if_neg ?_]
        · simp
        · simp only [List.mem_cons]
          rintro (rfl | hk)
          · exact h rfl
          · exact hm hk

theorem addToBucket_keys_nodup {m : List (String × ℚ)} (k : String) (c : ℚ)
    (h : (m.map Prod.fst).Nodup) : ((addToBucket m k c).map Prod.fst).Nodup := by
  rw [addToBucket_keys]
  by_cases hm : k ∈ m.map Prod.fst
  · simpa [hm] using h
  · rw [if_neg hm]
    refine List.nodup_append.mpr ⟨h, List.nodup_singleton k, ?_⟩
    intro a ha hak
    rw [List.mem_singleton] at hak
    subst hak
    exact hm ha

/-- Helper for C2: the month buckets have pairwise-distinct keys. -/
theorem costsByMonth_fold_nodup : ∀ (items : List TrendItem) (m : List (String × ℚ)),
    (m.map Prod.fst).Nodup →
    (((items.foldl
        (fun m' it => addToBucket m' (monthKey it.startYM) (it.totalSalesPriceValue.getD 0))
        m)).map Prod.fst).Nodup
  | [], _, h => h
  | it :: rest, m, h =>
    costsByMonth_fold_nodup rest _ (addToBucket_keys_nodup _ _ h)

theorem costsByMonth_keys_nodup (items : List TrendItem) :
    ((costsByMonth items).map Prod.fst).Nodup :=
  costsByMonth_fold_nodup items [] (by simp)

/-- C2: the trends array is strictly ascending in its month buckets (hence
has no duplicate months), the first point has null `previousCost`,
`change` and `changePercent`, and every later point satisfies the
month-over-month change relation (`changePercent` rounded to 2 decimals,
`0` when the previous cost is `0`). -/
theorem C2_cost_trends (orgId monthsBack : Nat) (items : List TrendItem) :
    List.Pairwise (fun a b : TrendPoint => strLtJs a.month b.month = true)
        (getCostTrends orgId monthsBack items).trends ∧
      (∀ p, (getCostTrends orgId monthsBack items).trends.head? = some p →
        p.previousCost = none ∧ p.change = none ∧ p.changePercent = none) ∧
      ∀ (i : Nat) (h : i < (getCostTrends orgId monthsBack items).trends.length - 1),
        trendStep ((getCostTrends orgId monthsBack items).trends.get ⟨i, by omega⟩)
          ((getCostTrends orgId monthsBack items).trends.get ⟨i + 1, by omega⟩) := by
  refine ⟨?_, ?_, ?_⟩
  · show List.Pairwise _ (mkTrends (List.insertionSort monthOrder (costsByMonth items)))
    have h1 : List.Pairwise monthOrder
        (List.insertionSort monthOrder (costsByMonth items)) :=
      List.sorted_insertionSort monthOrder _
    have hnd : ((List.insertionSort monthOrder (costsByMonth items)).map Prod.fst).Nodup :=
      (List.Perm.nodup_iff ((List.perm_insertionSort monthOrder _).map Prod.fst)).mpr
        (costsByMonth_keys_nodup items)
    have h2 : List.Pairwise (fun a b : String × ℚ => a.1 ≠ b.1)
        (List.insertionSort monthOrder (costsByMonth items)) :=
      List.pairwise_map.mp hnd
    have h3 : List.Pairwise (fun a b : String × ℚ => strLtJs a.1 b.1 = true)
        (List.insertionSort monthOrder (costsByMonth items)) :=
      h1.imp₂ (fun _ _ hle hne => strLt_of_le_ne hle hne) h2
    have h4 : List.Pairwise (fun a b : String => strLtJs a b = true)
        ((List.insertionSort monthOrder (costsByMonth items)).map Prod.fst) :=
      List.pairwise_map.mpr h3
    rw [← mkTrends_months] at h4
    exact List.pairwise_map.mp h4
  · intro p hp
    have hp' : (mkTrends (List.insertionSort monthOrder (costsByMonth items))).head?
        = some p := hp
    cases hl : List.insertionSort monthOrder (costsByMonth items) with
    | nil => rw [hl] at hp'; simp [mkTrends] at hp'
    | cons hd tl =>
      rw [hl] at hp'
      obtain ⟨m, c⟩ := hd
      rw [mkTrends] at hp'
      simp only [List.head?_cons, Option.some_inj] at hp'
      subst hp'
      exact ⟨rfl, rfl, rfl⟩
  · intro i h
    exact List.chain'_iff_get.mp (chain'_mkTrends _) i h

/-- C2 witness: two months of billing data. -/
theorem C2_cost_trends_witness :
    List.Pairwise (fun a b : TrendPoint => strLtJs a.month b.month = true)
        (getCostTrends 1 6 [⟨some (2025, 1), some 100⟩, ⟨some (2025, 2), some 150⟩]).trends ∧
      ((⟨"2025-01", 100, none, none, none⟩ : TrendPoint).previousCost = none ∧
        (⟨"2025-01", 100, none, none, none⟩ : TrendPoint).change = none ∧
        (⟨"2025-01", 100, none, none, none⟩ : TrendPoint).changePercent = none) ∧
      trendStep
        ((getCostTrends 1 6 [⟨some (2025, 1), some 100⟩, ⟨some (2025, 2), some 150⟩]).trends.get
          ⟨0, by decide⟩)
        ((getCostTrends 1 6 [⟨some (2025, 1), some 100⟩, ⟨some (2025, 2), some 150⟩]).trends.get
          ⟨1, by decide⟩) := by
  obtain ⟨h1, h2, h3⟩ := C2_cost_trends 1 6 [⟨some (2025, 1), some 100⟩, ⟨some (2025, 2), some 150⟩]
  exact ⟨h1, h2 ⟨"2025-01", 100, none, none, none⟩ (by decide), h3 0 (by decide)⟩

/-- Helpers for C4, C8, C9: each per-subscription map body always resolves
(the try/catch swallows the fetch failure). -/
theorem resolveTagsAnalyze_ok (fetch : Nat → Except Unit (Option Tags)) (sub : SubBasic) :
    resolveTagsAnalyze fetch sub = .ok ⟨sub.id, sub.name, fetchedTags fetch sub.id⟩ := by
  unfold resolveTagsAnalyze fetchedTags
  cases fetch sub.id <;> rfl

theorem resolveTagsTrack_ok (fetch : Nat → Except Unit (Option Tags)) (sub : SubBasic) :
    resolveTagsTrack fetch sub = .ok ⟨sub.id, sub.name, fetchedTagsRaw fetch sub.id⟩ := by
  unfold resolveTagsTrack fetchedTagsRaw
  cases fetch sub.id <;> rfl

/-- `Promise.all` over a map whose entries all resolve, resolves. -/
theorem promiseAll_map_ok {α β : Type} (f : α → Except Unit β) (g : α → β)
    (hf : ∀ a, f a = .ok (g a)) : ∀ l : List α, promiseAll (l.map f) = .ok (l.map g)
  | [] => rfl
  | a :: rest => by
    rw [List.map_cons, promiseAll, hf a, promiseAll_map_ok f g hf rest, List.map_cons]
    rfl

/-- Evaluation of `analyzeCostsByTags` (the fan-out always resolves). -/
theorem analyzeCostsByTags_eq (fetch : Nat → Except Unit (Option Tags))
    (orgId monthsBack : Nat) (subs : List SubBasic) (items : List TagBillingItem) :
    analyzeCostsByTags fetch orgId monthsBack subs items =
      .ok { organizationId := orgId
            monthsBack := monthsBack
            subscriptionsAnalyzed := subs.length
            costBreakdown := mkCostBreakdown (costsByTagOf
              (fun sid => (mapGet ((subs.map (fun s =>
                (⟨s.id, s.name, fetchedTags fetch s.id⟩ : SubWithTags))).map
                  (fun s => (s.id, s.tags))) sid).getD []) items) } := by
  unfold analyzeCostsByTags
  rw [promiseAll_map_ok _ _ (resolveTagsAnalyze_ok fetch) subs]
  simp

/-- Evaluation of `getLastMonthCostsByTags`. -/
theorem getLastMonthCostsByTags_eq (fetch : Nat → Except Unit (Option Tags))
    (orgId : Nat) (subs : List SubBasic) (items : List TagBillingItem) :
    getLastMonthCostsByTags fetch orgId subs items =
      (let swt := subs.map (fun s => (⟨s.id, s.name, fetchedTags fetch s.id⟩ : SubWithTags))
       let tagsOf := fun sid => (mapGet (swt.map fun s => (s.id, s.tags)) sid).getD []
       let nameOf := fun sid => lmNameOf (swt.map fun s => (s.id, s.name)) sid
       let breakdown := mkLMBreakdown (lmFold tagsOf nameOf items)
       .ok { organizationId := orgId
             totalCost := (breakdown.map (·.total)).sum
             tagsCount := breakdown.length
             costByTags := breakdown }) := by
  unfold getLastMonthCostsByTags
  rw [promiseAll_map_ok _ _ (resolveTagsAnalyze_ok fetch) subs]

/-- Evaluation of `getCostByTags`. -/
theorem getCostByTags_eq {β : Type} (fetch : Nat → Except Unit (Option Tags))
    (orgId monthsBack : Nat) (subs : List SubBasic) (billing : β) :
    getCostByTags fetch orgId monthsBack subs billing =
      .ok ⟨subs.map (fun s => ⟨s.id, s.name, fetchedTagsRaw fetch s.id⟩),
           billing, orgId, monthsBack⟩ := by
  unfold getCostByTags
  rw [promiseAll_map_ok _ _ (resolveTagsTrack_ok fetch) subs]

/-- C8 counterexample: in `getCostByTags` a failed tag fetch yields
`tags: null`, which is not an empty tag set — the claim's "degrades to an
empty tag set" is false for this operation. -/
theorem C8_counterexample :
    getCostByTags (fun _ => .error ()) 1 3 [⟨1, "prod"⟩] (0 : Nat) =
        .ok ⟨[⟨1, "prod", none⟩], 0, 1, 3⟩ ∧
      (⟨1, "prod", none⟩ : SubWithTagsN).tags ≠ some ([] : Tags) := by
  constructor
  · rfl
  · simp

/-- C8 amended: in every tag-based allocation operation a failed
per-subscription tag fetch never aborts the whole operation or fails
sibling fetches — the operation always resolves; the failed subscription
degrades to an empty tag set in `analyzeCostsByTags` and the last-month
variant, and to a `null` tags value in `getCostByTags`
(`trackCostsByTags`). -/
theorem C8_tag_fetch_degrades (fetch : Nat → Except Unit (Option Tags))
    (orgId monthsBack : Nat) (subs : List SubBasic) (items : List TagBillingItem)
    {β : Type} (billing : β) :
    (∃ r, analyzeCostsByTags fetch orgId monthsBack subs items = .ok r) ∧
    (∃ r, getLastMonthCostsByTags fetch orgId subs items = .ok r) ∧
    (∃ r, getCostByTags fetch orgId monthsBack subs billing = .ok r) ∧
    ∀ sub : SubBasic, fetch sub.id = .error () →
      resolveTagsAnalyze fetch sub = .ok ⟨sub.id, sub.name, []⟩ ∧
      resolveTagsTrack fetch sub = .ok ⟨sub.id, sub.name, none⟩ := by
  refine ⟨⟨_, analyzeCostsByTags_eq fetch orgId monthsBack subs items⟩,
    ⟨_, getLastMonthCostsByTags_eq fetch orgId subs items⟩,
    ⟨_, getCostByTags_eq fetch orgId monthsBack subs billing⟩, ?_⟩
  intro sub hf
  constructor <;> simp [resolveTagsAnalyze, resolveTagsTrack, hf]

/-- C8 witness: a fetch that always fails, one subscription. -/
theorem C8_tag_fetch_degrades_witness :
    (∃ r, analyzeCostsByTags (fun _ => .error ()) 1 3 [⟨1, "prod"⟩] [] = .ok r) ∧
    (∃ r, getLastMonthCostsByTags (fun _ => .error ()) 1 [⟨1, "prod"⟩] [] = .ok r) ∧
    (∃ r, getCostByTags (fun _ => .error ()) 1 3 [⟨1, "prod"⟩] (0 : Nat) = .ok r) ∧
    (resolveTagsAnalyze (fun _ => .error ()) ⟨1, "prod"⟩ = .ok ⟨1, "prod", []⟩ ∧
      resolveTagsTrack (fun _ => .error ()) ⟨1, "prod"⟩ = .ok ⟨1, "prod", none⟩) := by
  obtain ⟨h1, h2, h3, h4⟩ :=
    C8_tag_fetch_degrades (fun _ => .error ()) 1 3 [⟨1, "prod"⟩] [] (0 : Nat)
  exact ⟨h1, h2, h3, h4 ⟨1, "prod"⟩ rfl⟩

/-- Helper for C9: when every subscription's resolved tag set is empty,
every lookup in the subscription-to-tags map yields the empty tag set. -/
theorem mapGet_tags_empty (fetch : Nat → Except Unit (Option Tags)) (subs : List SubBasic)
    (hempty : ∀ s ∈ subs, fetchedTags fetch s.id = []) (sid : Option Nat) :
    ((mapGet ((subs.map (fun s =>
        (⟨s.id, s.name, fetchedTags fetch s.id⟩ : SubWithTags))).map
          (fun s => (s.id, s.tags))) sid).getD []) = [] := by
  cases sid with
  | none => rfl
  | some i =>
    simp only [mapGet]
    cases hf : (((subs.map (fun s =>
        (⟨s.id, s.name, fetchedTags fetch s.id⟩ : SubWithTags))).map
          (fun s => (s.id, s.tags))).reverse.find? (fun p => p.1 = i)) with
    | none => rfl
    | some p =>
      have hmem := List.mem_of_find?_eq_some hf
      rw [List.mem_reverse] at hmem
      simp only [List.map_map, List.mem_map, Function.comp] at hmem
      obtain ⟨s, hs, rfl⟩ := hmem
      simp [hempty s hs]

/-- Helper for C9: folding items over an everywhere-empty tag lookup
leaves the cost map empty. -/
theorem costsByTagOf_empty (tagsOf : Option Nat → Tags)
    (htags : ∀ sid, tagsOf sid = []) (items : List TagBillingItem) :
    costsByTagOf tagsOf items = [] := by
  unfold costsByTagOf
  have step : ∀ (l : List TagBillingItem) (m : TagMap),
      List.foldl (fun m' it => (tagsOf it.subscriptionId).foldl
        (fun m'' p => addTagCost m'' p.1 p.2 (it.totalSalesPrice.getD 0)) m') m l = m := by
    intro l
    induction l with
    | nil => intro m; rfl
    | cons it rest ih =>
      intro m
      rw [List.foldl_cons, htags it.subscriptionId]
      exact ih m
  exact step items []

theorem lmFold_empty (tagsOf : Option Nat → Tags) (nameOf : Option Nat → String)
    (htags : ∀ sid, tagsOf sid = []) (items : List TagBillingItem) :
    lmFold tagsOf nameOf items = [] := by
  unfold lmFold
  have step : ∀ (l : List TagBillingItem) (m : LMMap),
      List.foldl (fun m' it => (tagsOf it.subscriptionId).foldl
        (fun m'' p => addLMCost m'' p.1 p.2 (it.totalSalesPrice.getD 0)
          (nameOf it.subscriptionId)) m') m l = m := by
    intro l
    induction l with
    | nil => intro m; rfl
    | cons it rest ih =>
      intro m
      rw [List.foldl_cons, htags it.subscriptionId]
      exact ih m
  exact step items []

/-- C9: for an organization with no tagged subscriptions, the tag-based
allocation succeeds (no error), `analyzeCostsByTags` returns an empty
`costBreakdown`, and the last-month variant returns an empty tag list
with `totalCost = 0`. -/
theorem C9_no_tagged_subscriptions (fetch : Nat → Except Unit (Option Tags))
    (orgId monthsBack : Nat) (subs : List SubBasic) (items : List TagBillingItem)
    (hempty : ∀ s ∈ subs, fetchedTags fetch s.id = []) :
    (∃ r, analyzeCostsByTags fetch orgId monthsBack subs items = .ok r ∧
      r.costBreakdown = []) ∧
    ∃ r2, getLastMonthCostsByTags fetch orgId subs items = .ok r2 ∧
      r2.costByTags = [] ∧ r2.totalCost = 0 := by
  constructor
  · refine ⟨_, analyzeCostsByTags_eq fetch orgId monthsBack subs items, ?_⟩
    show mkCostBreakdown (costsByTagOf _ items) = []
    rw [costsByTagOf_empty _ (mapGet_tags_empty fetch subs hempty) items]
    rfl
  · refine ⟨_, getLastMonthCostsByTags_eq fetch orgId subs items, ?_, ?_⟩
    · show mkLMBreakdown (lmFold _ _ items) = []
      rw [lmFold_empty _ _ (mapGet_tags_empty fetch subs hempty) items]
      rfl
    · show ((mkLMBreakdown (lmFold _ _ items)).map (·.total)).sum = 0
      rw [lmFold_empty _ _ (mapGet_tags_empty fetch subs hempty) items]
      rfl

/-- C9 witness: a fetch returning `null` tag sets for the one
subscription, with one billing item. -/
theorem C9_no_tagged_subscriptions_witness :
    (∃ r, analyzeCostsByTags (fun _ => .ok none) 1 3 [⟨1, "prod"⟩]
        [⟨some 1, some 5⟩] = .ok r ∧ r.costBreakdown = []) ∧
    ∃ r2, getLastMonthCostsByTags (fun _ => .ok none) 1 [⟨1, "prod"⟩]
        [⟨some 1, some 5⟩] = .ok r2 ∧ r2.costByTags = [] ∧ r2.totalCost = 0 :=
  C9_no_tagged_subscriptions (fun _ => .ok none) 1 3 [⟨1, "prod"⟩]
    [⟨some 1, some 5⟩] (by intro s _; rfl)

/-- Helper for C4: value-bucket lookup after one bucket update. -/
theorem getVal_addToBucket : ∀ (vals : List (String × ℚ)) (v' : String) (c : ℚ) (v : String),
    getVal (addToBucket vals v' c) v = getVal vals v + (if v' = v then c else 0)
  | [], v', c, v => by
    by_cases h : v' = v <;> simp [addToBucket, getVal, h]
  | (v0, c0) :: rest, v', c, v => by
    rw [addToBucket]
    by_cases h : v0 = v'
    · subst h
      by_cases h2 : v0 = v <;> simp [getVal, h2]
    · rw [if_neg h]
      by_cases h2 : v0 = v
      · subst h2
        have hv : ¬ (v' = v0) := fun hv => h hv.symm
        simp [getVal, hv]
      · simp [getVal, h2, getVal_addToBucket rest v' c v]

/-- Helper for C4: tag-bucket lookup after one cost update. -/
theorem getCost2_addTagCost : ∀ (m : TagMap) (k' v' : String) (c : ℚ) (k v : String),
    getCost2 (addTagCost m k' v' c) k v =
      getCost2 m k v + (if k' = k ∧ v' = v then c else 0)
  | [], k', v', c, k, v => by
    by_cases h : k' = k
    · subst h
      by_cases h2 : v' = v
      · subst h2
        simp [addTagCost, getCost2, getVal]
      · simp [addTagCost, getCost2, getVal, h2]
    · simp [addTagCost, getCost2, getVal, h]
  | (k0, vals) :: rest, k', v', c, k, v => by
    rw [addTagCost]
    by_cases h : k0 = k'
    · subst h
      rw [if_pos rfl]
      by_cases h2 : k0 = k
      · subst h2
        simp [getCost2, getVal_addToBucket]
      · have hc : ¬ (k0 = k ∧ v' = v) := fun hc => h2 hc.1
        simp [getCost2, h2, hc]
    · rw [if_neg h]
      by_cases h2 : k0 = k
      · subst h2
        have hc : ¬ (k' = k0 ∧ v' = v) := fun hc => h hc.1.symm
        simp [getCost2, hc]
      · simp [getCost2, h2, getCost2_addTagCost rest k' v' c k v]

/-- Helper for C4: adding one item's cost to all its (nodup) tag pairs. -/
theorem getCost2_addPairs (c : ℚ) : ∀ (ps : Tags) (m : TagMap) (k v : String), ps.Nodup →
    getCost2 (ps.foldl (fun m' p => addTagCost m' p.1 p.2 c) m) k v =
      getCost2 m k v + (if (k, v) ∈ ps then c else 0)
  | [], m, k, v, _ => by simp
  | p :: rest, m, k, v, hnd => by
    rw [List.foldl_cons]
    have hnd' := List.nodup_cons.mp hnd
    rw [getCost2_addPairs c rest _ k v hnd'.2, getCost2_addTagCost]
    by_cases hp : (k, v) = p
    · have hm : (k, v) ∉ rest := by
        rw [hp]
        exact hnd'.1
      obtain ⟨hp1, hp2⟩ : p.1 = k ∧ p.2 = v := by
        rw [← hp]
        exact ⟨rfl, rfl⟩
      simp [hm, hp1, hp2, hp, hnd'.1]
    · have h1 : ¬ (p.1 = k ∧ p.2 = v) := fun hc => hp (Prod.ext hc.1.symm hc.2.symm)
      rw [if_neg h1]
      by_cases hm : (k, v) ∈ rest <;> simp [hm, List.mem_cons, hp]

/-- Helper for C4 (last-month variant): value lookup after one update. -/
theorem getLMVal_addLMVal : ∀ (vals : List (String × LMValue)) (v' : String) (c : ℚ)
    (n : String) (v : String),
    getLMVal (addLMVal vals v' c n) v = getLMVal vals v + (if v' = v then c else 0)
  | [], v', c, n, v => by
    by_cases h : v' = v <;> simp [addLMVal, getLMVal, h]
  | (v0, val) :: rest, v', c, n, v => by
    rw [addLMVal]
    by_cases h : v0 = v'
    · subst h
      by_cases h2 : v0 = v <;> simp [getLMVal, h2]
    · rw [if_neg h]
      by_cases h2 : v0 = v
      · subst h2
        have hv : ¬ (v' = v0) := fun hv => h hv.symm
        simp [getLMVal, hv]
      · simp [getLMVal, h2, getLMVal_addLMVal rest v' c n v]

theorem getLMCost_addLMCost : ∀ (m : LMMap) (k' v' : String) (c : ℚ) (n : String)
    (k v : String),
    getLMCost (addLMCost m k' v' c n) k v =
      getLMCost m k v + (if k' = k ∧ v' = v then c else 0)
  | [], k', v', c, n, k, v => by
    by_cases h : k' = k
    · subst h
      by_cases h2 : v' = v
      · subst h2
        simp [addLMCost, getLMCost, addLMVal, getLMVal]
      · simp [addLMCost, getLMCost, addLMVal, getLMVal, h2]
    · simp [addLMCost, getLMCost, addLMVal, getLMVal, h]
  | (k0, vals) :: rest, k', v', c, n, k, v => by
    rw [addLMCost]
    by_cases h : k0 = k'
    · subst h
      rw [if_pos rfl]
      by_cases h2 : k0 = k
      · subst h2
        simp [getLMCost, getLMVal_addLMVal]
      · have hc : ¬ (k0 = k ∧ v' = v) := fun hc => h2 hc.1
        simp [getLMCost, h2, hc]
    · rw [if_neg h]
      by_cases h2 : k0 = k
      · subst h2
        have hc : ¬ (k' = k0 ∧ v' = v) := fun hc => h hc.1.symm
        simp [getLMCost, hc]
      · simp [getLMCost, h2, getLMCost_addLMCost rest k' v' c n k v]

theorem getLMCost_addPairs (c : ℚ) (n : String) : ∀ (ps : Tags) (m : LMMap)
    (k v : String), ps.Nodup →
    getLMCost (ps.foldl (fun m' p => addLMCost m' p.1 p.2 c n) m) k v =
      getLMCost m k v + (if (k, v) ∈ ps then c else 0)
  | [], m, k, v, _ => by simp
  | p :: rest, m, k, v, hnd => by
    rw [List.foldl_cons]
    have hnd' := List.nodup_cons.mp hnd
    rw [getLMCost_addPairs c n rest _ k v hnd'.2, getLMCost_addLMCost]
    by_cases hp : (k, v) = p
    · have hm : (k, v) ∉ rest := by
        rw [hp]
        exact hnd'.1
      obtain ⟨hp1, hp2⟩ : p.1 = k ∧ p.2 = v := by
        rw [← hp]
        exact ⟨rfl, rfl⟩
      simp [hm, hp1, hp2, hp, hnd'.1]
    · have h1 : ¬ (p.1 = k ∧ p.2 = v) := fun hc => hp (Prod.ext hc.1.symm hc.2.symm)
      rw [if_neg h1]
      by_cases hm : (k, v) ∈ rest <;> simp [hm, List.mem_cons, hp]

/-- C4 core for `analyzeCostsByTags`: the aggregated bucket of a
`(tagKey, tagValue)` pair is exactly the sum of the undivided costs of all
billing items whose subscription carries that pair. -/
theorem getCost2_costsByTagOf (tagsOf : Option Nat → Tags)
    (hnd : ∀ sid, (tagsOf sid).Nodup) (items : List TagBillingItem) (k v : String) :
    getCost2 (costsByTagOf tagsOf items) k v = tagPairCost tagsOf items k v := by
  unfold costsByTagOf tagPairCost
  have main : ∀ (l : List TagBillingItem) (m : TagMap),
      getCost2 (l.foldl (fun m' it => (tagsOf it.subscriptionId).foldl
          (fun m'' p => addTagCost m'' p.1 p.2 (it.totalSalesPrice.getD 0)) m') m) k v =
        getCost2 m k v + ((l.map (fun it =>
          if (k, v) ∈ tagsOf it.subscriptionId then it.totalSalesPrice.getD 0 else 0)).sum) := by
    intro l
    induction l with
    | nil => intro m; simp
    | cons it rest ih =>
      intro m
      rw [List.foldl_cons, ih, getCost2_addPairs _ _ _ _ _ (hnd _), List.map_cons,
        List.sum_cons]
      ring
  have h := main items []
  rw [h]
  simp [getCost2]

/-- C4 core for `getLastMonthCostsByTags`: same per-pair characterization. -/
theorem getLMCost_lmFold (tagsOf : Option Nat → Tags) (nameOf : Option Nat → String)
    (hnd : ∀ sid, (tagsOf sid).Nodup) (items : List TagBillingItem) (k v : String) :
    getLMCost (lmFold tagsOf nameOf items) k v = tagPairCost tagsOf items k v := by
  unfold lmFold tagPairCost
  have main : ∀ (l : List TagBillingItem) (m : LMMap),
      getLMCost (l.foldl (fun m' it => (tagsOf it.subscriptionId).foldl
          (fun m'' p => addLMCost m'' p.1 p.2 (it.totalSalesPrice.getD 0)
            (nameOf it.subscriptionId)) m') m) k v =
        getLMCost m k v + ((l.map (fun it =>
          if (k, v) ∈ tagsOf it.subscriptionId then it.totalSalesPrice.getD 0 else 0)).sum) := by
    intro l
    induction l with
    | nil => intro m; simp
    | cons it rest ih =>
      intro m
      rw [List.foldl_cons, ih, getLMCost_addPairs _ _ _ _ _ _ (hnd _), List.map_cons,
        List.sum_cons]
      ring
  have h := main items []
  rw [h]
  simp [getLMCost]

/-- Helper for C4: each produced tag-breakdown entry of
`analyzeCostsByTags` sums to its total and is sorted by descending cost. -/
theorem mkCostBreakdown_entry (m : TagMap) :
    ∀ e ∈ mkCostBreakdown m, (e.breakdown.map (·.cost)).sum = e.total ∧
      List.Pairwise breakdownOrder e.breakdown := by
  intro e he
  obtain ⟨kv, _, rfl⟩ := List.mem_map.mp he
  refine ⟨?_, List.sorted_insertionSort _ _⟩
  show ((List.insertionSort breakdownOrder
    (kv.2.map (fun vc => (⟨vc.1, vc.2⟩ : BreakdownEntry)))).map (·.cost)).sum = _
  rw [List.Perm.sum_eq ((List.perm_insertionSort breakdownOrder _).map (·.cost)),
    List.map_map]
  rfl

theorem mkLMBreakdown_entry (m : LMMap) :
    ∀ t ∈ mkLMBreakdown m, (t.breakdown.map (·.cost)).sum = t.total ∧
      List.Pairwise lmEntryOrder t.breakdown := by
  intro t ht
  have ht' := (List.perm_insertionSort lmTagOrder _).mem_iff.mp ht
  obtain ⟨kv, _, rfl⟩ := List.mem_map.mp ht'
  exact ⟨rfl, List.sorted_insertionSort _ _⟩

/-- C4: in both tag-based allocations, every tag entry's breakdown sums to
the reported total and is sorted by descending cost; and the aggregation
adds each billing line item's cost, undivided, to every
`(tagKey, tagValue)` pair on its subscription (for tag sets without
duplicate pairs, as JS objects guarantee). -/
theorem C4_tag_allocation_sums (fetch : Nat → Except Unit (Option Tags))
    (orgId monthsBack : Nat) (subs : List SubBasic) (items : List TagBillingItem) :
    (∀ r, analyzeCostsByTags fetch orgId monthsBack subs items = .ok r →
      ∀ e ∈ r.costBreakdown,
        (e.breakdown.map (·.cost)).sum = e.total ∧
        List.Pairwise breakdownOrder e.breakdown) ∧
    (∀ r, getLastMonthCostsByTags fetch orgId subs items = .ok r →
      ∀ t ∈ r.costByTags,
        (t.breakdown.map (·.cost)).sum = t.total ∧
        List.Pairwise lmEntryOrder t.breakdown) ∧
    (∀ tagsOf : Option Nat → Tags, (∀ sid, (tagsOf sid).Nodup) → ∀ k v,
      getCost2 (costsByTagOf tagsOf items) k v = tagPairCost tagsOf items k v) ∧
    (∀ (tagsOf : Option Nat → Tags) (nameOf : Option Nat → String),
      (∀ sid, (tagsOf sid).Nodup) → ∀ k v,
      getLMCost (lmFold tagsOf nameOf items) k v = tagPairCost tagsOf items k v) := by
  refine ⟨?_, ?_, ?_, ?_⟩
  · intro r hr
    rw [analyzeCostsByTags_eq] at hr
    obtain rfl := (Except.ok.injEq _ _).mp hr.symm
    exact mkCostBreakdown_entry _
  · intro r hr
    rw [getLastMonthCostsByTags_eq] at hr
    obtain rfl := (Except.ok.injEq _ _).mp hr.symm
    exact mkLMBreakdown_entry _
  · intro tagsOf hnd k v
    exact getCost2_costsByTagOf tagsOf hnd items k v
  · intro tagsOf nameOf hnd k v
    exact getLMCost_lmFold tagsOf nameOf hnd items k v

/-- C4 witness: one subscription tagged `env = prod`, one billing item of
cost 5. -/
theorem C4_tag_allocation_sums_witness :
    ((([⟨"prod", 5⟩] : List BreakdownEntry).map (·.cost)).sum =
        (⟨"env", [⟨"prod", 5⟩], 5⟩ : TagBreakdown).total ∧
      List.Pairwise breakdownOrder [(⟨"prod", 5⟩ : BreakdownEntry)]) ∧
    ((([⟨"prod", 5, 1, ["s"]⟩] : List LMEntry).map (·.cost)).sum =
        (⟨"env", 5, [⟨"prod", 5, 1, ["s"]⟩]⟩ : LMTag).total ∧
      List.Pairwise lmEntryOrder [(⟨"prod", 5, 1, ["s"]⟩ : LMEntry)]) ∧
    getCost2 (costsByTagOf (fun _ => [("env", "prod")]) [⟨some 1, some 5⟩]) "env" "prod" =
      tagPairCost (fun _ => [("env", "prod")]) [⟨some 1, some 5⟩] "env" "prod" ∧
    getLMCost (lmFold (fun _ => [("env", "prod")]) (fun _ => "s")
        [⟨some 1, some 5⟩]) "env" "prod" =
      tagPairCost (fun _ => [("env", "prod")]) [⟨some 1, some 5⟩] "env" "prod" := by
  obtain ⟨h1, h2, h3, h4⟩ := C4_tag_allocation_sums
    (fun _ => .ok (some [("env", "prod")])) 1 3 [⟨1, "s"⟩] [⟨some 1, some 5⟩]
  refine ⟨h1 ⟨1, 3, 1, [⟨"env", [⟨"prod", 5⟩], 5⟩]⟩ ?_ ⟨"env", [⟨"prod", 5⟩], 5⟩ ?_,
          h2 ⟨1, 5, 1, [⟨"env", 5, [⟨"prod", 5, 1, ["s"]⟩]⟩]⟩ ?_
            ⟨"env", 5, [⟨"prod", 5, 1, ["s"]⟩]⟩ ?_,
          h3 (fun _ => [("env", "prod")]) ?_ "env" "prod",
          h4 (fun _ => [("env", "prod")]) (fun _ => "s") ?_ "env" "prod"⟩
  · rw [analyzeCostsByTags_eq]
    simp [mkCostBreakdown, costsByTagOf, addTagCost, addToBucket, mapGet, fetchedTags,
      List.find?, List.insertionSort, List.orderedInsert]
  · simp
  · rw [getLastMonthCostsByTags_eq]
    simp [mkLMBreakdown, lmFold, addLMCost, addLMVal, mapGet, fetchedTags, lmNameOf,
      List.find?, List.insertionSort, List.orderedInsert]
  · simp
  · intro sid
    simp
  · intro sid
    simp

/-! ## C1: what `validateToolInput` returns on a successful validation

The schema pipeline itself normalizes and is stable under re-running
(proved below of `validateAsyncResolved`), but the source function then
destructures `{ value, error }` from the resolved object and returns its
`value` property — `undefined` for every schema of the table. -/

/-- Checking a value a second time is the identity: every conversion
`checkVal` performs yields a value that passes the same check unchanged. -/
theorem checkVal_idem (c : String → Bool) :
    ∀ (ty : FieldType) (v w : ArgVal), checkVal c ty v = some w → checkVal c ty w = some w := by
  intro ty v w h
  cases ty with
  | intField lo hi =>
    cases htn : toNum v with
    | none => simp [checkVal, htn] at h
    | some q =>
      simp only [checkVal, htn] at h
      split at h
      next hcond =>
        injection h with h2
        subst h2
        simp only [checkVal, toNum]
        rw [if_pos hcond]
      next => simp at h
  | numField lo hi =>
    cases htn : toNum v with
    | none => simp [checkVal, htn] at h
    | some q =>
      simp only [checkVal, htn] at h
      split at h
      next hcond =>
        injection h with h2
        subst h2
        simp only [checkVal, toNum]
        rw [if_pos hcond]
      next => simp at h
  | enumField opts =>
    cases v with
    | str s =>
      simp only [checkVal] at h
      split at h
      next hmem =>
        injection h with h2
        subst h2
        simp only [checkVal]
        rw [if_pos hmem]
      next => simp at h
    | num q => simp [checkVal] at h
    | bool b => simp [checkVal] at h
    | obj fs => simp [checkVal] at h
  | dateField =>
    cases v with
    | str s =>
      simp only [checkVal] at h
      split at h
      next hiso =>
        injection h with h2
        subst h2
        simp only [checkVal]
        rw [if_pos hiso]
      next => simp at h
    | num q => simp [checkVal] at h
    | bool b => simp [checkVal] at h
    | obj fs => simp [checkVal] at h
  | boolField =>
    cases v with
    | bool b =>
      simp only [checkVal] at h
      injection h with h2
      subst h2
      simp [checkVal]
    | str s =>
      simp only [checkVal] at h
      split at h
      next =>
        injection h with h2
        subst h2
        simp [checkVal]
      next =>
        split at h
        next =>
          injection h with h2
          subst h2
          simp [checkVal]
        next => simp at h
    | num q => simp [checkVal] at h
    | obj fs => simp [checkVal] at h
  | patternField maxLen =>
    cases v with
    | str s =>
      simp only [checkVal] at h
      split at h
      next hok =>
        injection h with h2
        subst h2
        simp only [checkVal]
        rw [if_pos hok]
      next => simp at h
    | num q => simp [checkVal] at h
    | bool b => simp [checkVal] at h
    | obj fs => simp [checkVal] at h
  | tagsField =>
    cases v with
    | obj fs =>
      simp only [checkVal] at h
      split at h
      next hall =>
        injection h with h2
        subst h2
        simp only [checkVal]
        rw [if_pos hall]
      next => simp at h
    | num q => simp [checkVal] at h
    | bool b => simp [checkVal] at h
    | str s => simp [checkVal] at h

/-- A produced entry carries the spec's field name. -/
theorem validateField_ok_name (c : String → Bool) (spec : FieldSpec) (args : Args)
    (e : String × ArgVal) (h : validateField c spec args = .ok (some e)) :
    e.1 = spec.name := by
  cases hl : List.lookup spec.name args with
  | some v =>
    cases hc : checkVal c spec.ty v with
    | some w =>
      simp only [validateField, hl, hc, Except.ok.injEq, Option.some.injEq] at h
      subst h
      rfl
    | none => simp [validateField, hl, hc] at h
  | none =>
    cases hd : spec.dflt with
    | some d =>
      simp only [validateField, hl, hd, Except.ok.injEq, Option.some.injEq] at h
      subst h
      rfl
    | none =>
      cases hr : spec.required with
      | true => simp [validateField, hl, hd, hr] at h
      | false => simp [validateField, hl, hd, hr] at h

/-- Entries contributed by `fieldResult` are named after their spec. -/
theorem fieldResult_name (c : String → Bool) (spec : FieldSpec) (args : Args)
    (e : String × ArgVal) (h : fieldResult c spec args = some e) :
    e.1 = spec.name := by
  cases hv : validateField c spec args with
  | error s => simp [fieldResult, hv] at h
  | ok o =>
    simp only [fieldResult, hv] at h
    subst h
    exact validateField_ok_name c spec args e hv

/-- With a default present, a successful field validation always produces
an entry. -/
theorem validateField_isSome_of_dflt (c : String → Bool) (spec : FieldSpec) (args : Args)
    (o : Option (String × ArgVal)) (h : validateField c spec args = .ok o)
    (hd : spec.dflt.isSome = true) : o.isSome = true := by
  cases hl : List.lookup spec.name args with
  | some v =>
    cases hc : checkVal c spec.ty v with
    | some w =>
      simp only [validateField, hl, hc, Except.ok.injEq] at h
      subst h
      rfl
    | none => simp [validateField, hl, hc] at h
  | none =>
    cases hdd : spec.dflt with
    | some d =>
      simp only [validateField, hl, hdd, Except.ok.injEq] at h
      subst h
      rfl
    | none => rw [hdd] at hd; simp at hd

/-- Re-running a field against an environment that already binds the
field's name to the produced value (or omits it when nothing was
produced) returns the same result. -/
theorem validateField_stable (c : String → Bool) (spec : FieldSpec) (args env : Args)
    (o : Option (String × ArgVal))
    (hdef : ∀ d, spec.dflt = some d → checkVal c spec.ty d = some d)
    (h : validateField c spec args = .ok o)
    (henv : List.lookup spec.name env = o.map Prod.snd) :
    validateField c spec env = .ok o := by
  cases hl : List.lookup spec.name args with
  | some v =>
    cases hc : checkVal c spec.ty v with
    | some w =>
      simp only [validateField, hl, hc, Except.ok.injEq] at h
      subst h
      simp [validateField, henv, checkVal_idem c spec.ty v w hc]
    | none => simp [validateField, hl, hc] at h
  | none =>
    cases hd : spec.dflt with
    | some d =>
      simp only [validateField, hl, hd, Except.ok.injEq] at h
      subst h
      simp [validateField, henv, hdef d hd]
    | none =>
      cases hr : spec.required with
      | true => simp [validateField, hl, hd, hr] at h
      | false =>
        simp only [validateField, hl, hd, hr] at h
        simp only [Bool.false_eq_true, if_false, Except.ok.injEq] at h
        subst h
        simp [validateField, henv, hd, hr]

/-- A successful `runSchema` output is exactly the `filterMap` of the
per-field results, in schema order. -/
theorem runSchema_ok_out (c : String → Bool) :
    ∀ (specs : List FieldSpec) (args out : Args),
      runSchema c specs args = .ok out →
      out = specs.filterMap (fun spec => fieldResult c spec args) := by
  intro specs
  induction specs with
  | nil =>
    intro args out h
    simp only [runSchema, Except.ok.injEq] at h
    simp [← h]
  | cons spec rest ih =>
    intro args out h
    cases hv : validateField c spec args with
    | error e => simp [runSchema, hv] at h
    | ok hd =>
      cases hr : runSchema c rest args with
      | error e => simp [runSchema, hv, hr] at h
      | ok tl =>
        simp only [runSchema, hv, hr, Except.ok.injEq] at h
        subst h
        rw [List.filterMap_cons, ← ih args tl hr]
        simp only [fieldResult, hv]
        cases hd <;> simp

/-- A successful `runSchema` means every field validated successfully. -/
theorem runSchema_ok_each (c : String → Bool) :
    ∀ (specs : List FieldSpec) (args out : Args),
      runSchema c specs args = .ok out →
      ∀ spec ∈ specs, validateField c spec args = .ok (fieldResult c spec args) := by
  intro specs
  induction specs with
  | nil => intro args out _ spec hsp; exact absurd hsp (List.not_mem_nil spec)
  | cons s0 rest ih =>
    intro args out h spec hsp
    cases hv : validateField c s0 args with
    | error e => simp [runSchema, hv] at h
    | ok hd =>
      cases hr : runSchema c rest args with
      | error e => simp [runSchema, hv, hr] at h
      | ok tl =>
        rcases List.mem_cons.mp hsp with rfl | hsp'
        · simp [fieldResult, hv]
        · exact ih args tl hr spec hsp'

/-- `lookup` misses keys that are not among the list's keys. -/
theorem lookup_eq_none_of_not_mem {β : Type} :
    ∀ {l : List (String × β)} {n : String}, n ∉ l.map Prod.fst → List.lookup n l = none := by
  intro l
  induction l with
  | nil => intro n _; rfl
  | cons p rest ih =>
    intro n hn
    obtain ⟨k, v⟩ := p
    simp only [List.map_cons, List.mem_cons] at hn
    push_neg at hn
    have hb : (n == k) = false := beq_eq_false_iff_ne.mpr hn.1
    simp [List.lookup, hb, ih hn.2]

/-- A `lookup` hit on an association list yields one of its pairs. -/
theorem lookup_mem {β : Type} :
    ∀ {l : List (String × β)} {n : String} {v : β},
      List.lookup n l = some v → (n, v) ∈ l := by
  intro l
  induction l with
  | nil => intro n v h; simp [List.lookup] at h
  | cons p rest ih =>
    intro n v h
    obtain ⟨k, w⟩ := p
    by_cases he : n = k
    · subst he
      have hb : (n == n) = true := beq_self_eq_true n
      simp only [List.lookup, hb] at h
      injection h with h2
      subst h2
      exact List.mem_cons_self _ _
    · have hb : (n == k) = false := beq_eq_false_iff_ne.mpr he
      simp only [List.lookup, hb] at h
      exact List.mem_cons_of_mem _ (ih h)

/-- In the normalized output, looking up a schema field returns exactly
that field's produced value (schema field names being distinct). -/
theorem lookup_filterMap_out (c : String → Bool) (args : Args) :
    ∀ (specs : List FieldSpec),
      (specs.map FieldSpec.name).Nodup →
      ∀ spec ∈ specs,
        List.lookup spec.name (specs.filterMap (fun s => fieldResult c s args)) =
          (fieldResult c spec args).map Prod.snd := by
  intro specs
  induction specs with
  | nil => intro _ spec hmem; exact absurd hmem (List.not_mem_nil spec)
  | cons s0 rest ih =>
    intro hnd spec hmem
    simp only [List.map_cons, List.nodup_cons] at hnd
    rcases List.mem_cons.mp hmem with rfl | hmem'
    · cases hf : fieldResult c spec args with
      | some e =>
        obtain ⟨en, ev⟩ := e
        have hname : en = spec.name := fieldResult_name c spec args (en, ev) hf
        subst hname
        simp [List.filterMap_cons, hf, List.lookup]
      | none =>
        have hnotin : spec.name ∉
            (rest.filterMap (fun s => fieldResult c s args)).map Prod.fst := by
          intro hin
          obtain ⟨e, he, hee⟩ := List.mem_map.mp hin
          obtain ⟨s, hs2, hfs⟩ := List.mem_filterMap.mp he
          exact hnd.1
            (List.mem_map.mpr ⟨s, hs2, (fieldResult_name c s args e hfs).symm.trans hee⟩)
        simp [List.filterMap_cons, hf, lookup_eq_none_of_not_mem hnotin]
    · have hne : spec.name ≠ s0.name := by
        intro he
        exact hnd.1 (he ▸ List.mem_map.mpr ⟨spec, hmem', rfl⟩)
      have hb : (spec.name == s0.name) = false := beq_eq_false_iff_ne.mpr hne
      cases hf0 : fieldResult c s0 args with
      | some e =>
        obtain ⟨en, ev⟩ := e
        have hname : en = s0.name := fieldResult_name c s0 args (en, ev) hf0
        subst hname
        simp only [List.filterMap_cons, hf0, List.lookup, hb]
        exact ih hnd.2 spec hmem'
      | none =>
        simp only [List.filterMap_cons, hf0]
        exact ih hnd.2 spec hmem'

/-- `runSchema` over an environment where every field validates to a
prescribed result returns exactly those results. -/
theorem runSchema_of_fields (c : String → Bool) (f : FieldSpec → Option (String × ArgVal)) :
    ∀ (specs : List FieldSpec) (env : Args),
      (∀ spec ∈ specs, validateField c spec env = .ok (f spec)) →
      runSchema c specs env = .ok (specs.filterMap f) := by
  intro specs
  induction specs with
  | nil => intro env _; simp [runSchema]
  | cons spec rest ih =>
    intro env hall
    have h1 := hall spec (List.mem_cons_self spec rest)
    have h2 := ih env (fun s hs => hall s (List.mem_cons_of_mem spec hs))
    cases hf : f spec with
    | none => simp [runSchema, h1, h2, List.filterMap_cons, hf, Option.toList]
    | some e => simp [runSchema, h1, h2, List.filterMap_cons, hf, Option.toList]

set_option maxHeartbeats 1600000 in
/-- Every schema of the table has pairwise-distinct field names. -/
theorem schema_names_nodup :
    ∀ ps ∈ schemasList, ((ps.2.map FieldSpec.name).Nodup) := by decide

set_option maxHeartbeats 8000000 in
/-- Every default value of the schema table passes its own field's check
unchanged. -/
theorem schema_defaults_valid (c : String → Bool) :
    ∀ ps ∈ schemasList, ∀ spec ∈ ps.2, ∀ d, spec.dflt = some d →
      checkVal c spec.ty d = some d := by
  have hReq : ∀ (n : String) (t : FieldType) (d : ArgVal),
      (mkReq n t).dflt = some d → checkVal c (mkReq n t).ty d = some d := by
    intro n t d hd
    simp [mkReq] at hd
  have hOpt : ∀ (n : String) (t : FieldType) (d : ArgVal),
      (mkOpt n t).dflt = some d → checkVal c (mkOpt n t).ty d = some d := by
    intro n t d hd
    simp [mkOpt] at hd
  have hProv : ∀ (d : ArgVal),
      provisionTypeSpec.dflt = some d → checkVal c provisionTypeSpec.ty d = some d := by
    intro d hd
    simp [provisionTypeSpec, mkOpt] at hd
  have hPage : ∀ (d : ArgVal),
      pageNumberSpec.dflt = some d → checkVal c pageNumberSpec.ty d = some d := by
    intro d hd
    simp only [pageNumberSpec, mkDef, Option.some.injEq] at hd
    subst hd
    show checkVal c (.intField 1 none) (.num 1) = some (.num 1)
    simp only [checkVal, toNum]
    rw [if_pos]
    refine ⟨by decide, by decide, ?_⟩
    intro x hx
    simp at hx
  have hSize : ∀ (d : ArgVal),
      pageSizeSpec.dflt = some d → checkVal c pageSizeSpec.ty d = some d := by
    intro d hd
    simp only [pageSizeSpec, mkDef, Option.some.injEq] at hd
    subst hd
    show checkVal c (.intField 1 (some 500)) (.num 100) = some (.num 100)
    simp only [checkVal, toNum]
    rw [if_pos]
    refine ⟨by decide, by decide, ?_⟩
    intro x hx
    simp only [Option.mem_def, Option.some.injEq] at hx
    subst hx
    decide
  have hMB3 : ∀ (d : ArgVal),
      (monthsBackSpec 3).dflt = some d → checkVal c (monthsBackSpec 3).ty d = some d := by
    intro d hd
    simp only [monthsBackSpec, mkDef, Option.some.injEq] at hd
    subst hd
    show checkVal c (.intField 1 (some 24)) (.num 3) = some (.num 3)
    simp only [checkVal, toNum]
    rw [if_pos]
    refine ⟨by decide, by decide, ?_⟩
    intro x hx
    simp only [Option.mem_def, Option.some.injEq] at hx
    subst hx
    decide
  have hMB6 : ∀ (d : ArgVal),
      (monthsBackSpec 6).dflt = some d → checkVal c (monthsBackSpec 6).ty d = some d := by
    intro d hd
    simp only [monthsBackSpec, mkDef, Option.some.injEq] at hd
    subst hd
    show checkVal c (.intField 1 (some 24)) (.num 6) = some (.num 6)
    simp only [checkVal, toNum]
    rw [if_pos]
    refine ⟨by decide, by decide, ?_⟩
    intro x hx
    simp only [Option.mem_def, Option.some.injEq] at hx
    subst hx
    decide
  have hBom : ∀ (d : ArgVal),
      (mkDef "includeBom" .boolField (.bool false)).dflt = some d →
        checkVal c (mkDef "includeBom" .boolField (.bool false)).ty d = some d := by
    intro d hd
    simp only [mkDef, Option.some.injEq] at hd
    subst hd
    show checkVal c .boolField (.bool false) = some (.bool false)
    simp [checkVal]
  have hThr : ∀ (d : ArgVal),
      (mkDef "changeThresholdPercent" (.numField 1 100) (.num 25)).dflt = some d →
        checkVal c (mkDef "changeThresholdPercent" (.numField 1 100) (.num 25)).ty d =
          some d := by
    intro d hd
    simp only [mkDef, Option.some.injEq] at hd
    subst hd
    show checkVal c (.numField 1 100) (.num 25) = some (.num 25)
    simp only [checkVal, toNum]
    rw [if_pos]
    exact ⟨by decide, by decide⟩
  intro ps hps spec hspec d hd
  simp only [schemasList] at hps
  fin_cases hps <;> fin_cases hspec <;>
    first
      | exact hReq _ _ d hd
      | exact hOpt _ _ d hd
      | exact hProv d hd
      | exact hPage d hd
      | exact hSize d hd
      | exact hMB3 d hd
      | exact hMB6 d hd
      | exact hBom d hd
      | exact hThr d hd

/-- The object `validateAsync` resolves with is normalized: its keys come
from the tool's schema (unknown fields are stripped), every defaulted
field is present, and running the schema pipeline on it returns it
unchanged.  This is the property the specification ascribes to
`validateToolInput`'s return value; the destructuring in the source then
discards this object (see `C1_success_returns_undefined`). -/
theorem validateAsyncResolved_normalizes (c : String → Bool) (tool : String)
    (args out : Args) (h : validateAsyncResolved c tool args = .ok out) :
    (∃ specs, List.lookup tool schemasList = some specs ∧
      (∀ e ∈ out, e.1 ∈ specs.map FieldSpec.name) ∧
      (∀ spec ∈ specs, spec.dflt.isSome = true → spec.name ∈ out.map Prod.fst)) ∧
    validateAsyncResolved c tool out = .ok out := by
  cases hs : List.lookup tool schemasList with
  | none => simp [validateAsyncResolved, hs] at h
  | some specs =>
    simp only [validateAsyncResolved, hs] at h ⊢
    have hmemT : (tool, specs) ∈ schemasList := lookup_mem hs
    have hnd : (specs.map FieldSpec.name).Nodup := schema_names_nodup (tool, specs) hmemT
    have hdef : ∀ spec ∈ specs, ∀ d, spec.dflt = some d → checkVal c spec.ty d = some d :=
      schema_defaults_valid c (tool, specs) hmemT
    have hout : out = specs.filterMap (fun s => fieldResult c s args) :=
      runSchema_ok_out c specs args out h
    have hfields : ∀ spec ∈ specs, validateField c spec args = .ok (fieldResult c spec args) :=
      runSchema_ok_each c specs args out h
    refine ⟨⟨specs, rfl, ?_, ?_⟩, ?_⟩
    · intro e he
      rw [hout] at he
      obtain ⟨s, hs2, hfs⟩ := List.mem_filterMap.mp he
      rw [fieldResult_name c s args e hfs]
      exact List.mem_map.mpr ⟨s, hs2, rfl⟩
    · intro spec hsp hdsome
      have hv := hfields spec hsp
      have hsome := validateField_isSome_of_dflt c spec args (fieldResult c spec args) hv hdsome
      cases hfr : fieldResult c spec args with
      | none => rw [hfr] at hsome; simp at hsome
      | some e =>
        have hname := fieldResult_name c spec args e hfr
        rw [hout, ← hname]
        exact List.mem_map.mpr ⟨e, List.mem_filterMap.mpr ⟨spec, hsp, hfr⟩, rfl⟩
    · have henv : ∀ spec ∈ specs,
          List.lookup spec.name out = (fieldResult c spec args).map Prod.snd := by
        intro spec hsp
        rw [hout]
        exact lookup_filterMap_out c args specs hnd spec hsp
      have hstable : ∀ spec ∈ specs,
          validateField c spec out = .ok (fieldResult c spec args) := by
        intro spec hsp
        exact validateField_stable c spec args out (fieldResult c spec args)
          (hdef spec hsp) (hfields spec hsp) (henv spec hsp)
      have hrun := runSchema_of_fields c (fun s => fieldResult c s args) specs out hstable
      rw [hrun, ← hout]

set_option maxHeartbeats 1600000 in
/-- No schema of the table defines a field named `value` or `error`, so
the two properties `validateToolInput` destructures from the resolved
normalized object are always absent (`stripUnknown` removes any supplied
ones). -/
theorem schema_no_value_error :
    ∀ ps ∈ schemasList, "value" ∉ ps.2.map FieldSpec.name ∧
      "error" ∉ ps.2.map FieldSpec.name := by decide

/-- C1 (refuted by the code): the source destructures
`const { value, error } = await schema.validateAsync(...)`, but
`validateAsync` resolves with the normalized object itself, so `value`
and `error` are that object's properties of those names — and no schema
defines such fields.  Hence on every successful validation
`validateToolInput` returns `undefined` (`none`), never the normalized
argument object, and the claimed idempotence cannot hold of its output. -/
theorem C1_success_returns_undefined (c : String → Bool) (tool : String)
    (args out : Args) (h : validateAsyncResolved c tool args = .ok out) :
    validateToolInput c tool args = .ok none := by
  cases hs : List.lookup tool schemasList with
  | none => simp [validateAsyncResolved, hs] at h
  | some specs =>
    simp only [validateAsyncResolved, hs] at h
    have hmemT : (tool, specs) ∈ schemasList := lookup_mem hs
    have hnve := schema_no_value_error (tool, specs) hmemT
    have hout : out = specs.filterMap (fun s => fieldResult c s args) :=
      runSchema_ok_out c specs args out h
    have hkeys : ∀ n, n ∉ specs.map FieldSpec.name → n ∉ out.map Prod.fst := by
      intro n hn hmem
      obtain ⟨e, he, hee⟩ := List.mem_map.mp hmem
      rw [hout] at he
      obtain ⟨s, hs2, hfs⟩ := List.mem_filterMap.mp he
      have h1 : s.name = n := (fieldResult_name c s args e hfs).symm.trans hee
      exact hn (List.mem_map.mpr ⟨s, hs2, h1⟩)
    have hv : List.lookup "value" out = none :=
      lookup_eq_none_of_not_mem (hkeys "value" hnve.1)
    have he : List.lookup "error" out = none :=
      lookup_eq_none_of_not_mem (hkeys "error" hnve.2)
    simp [validateToolInput, hs, h, he, hv]

/-- Witness: a successful validation of `get_cost_trends` resolves with
the normalized object `{organizationId: 5, monthsBack: 6}`, yet
`validateToolInput` returns `none` (JS `undefined`). -/
theorem C1_success_returns_undefined_witness :
    validateAsyncResolved (fun _ => true) "get_cost_trends"
        [("organizationId", ArgVal.num 5)] =
      .ok [("organizationId", ArgVal.num 5), ("monthsBack", ArgVal.num 6)] ∧
    validateToolInput (fun _ => true) "get_cost_trends"
        [("organizationId", ArgVal.num 5)] = .ok none :=
  have h : validateAsyncResolved (fun _ => true) "get_cost_trends"
        [("organizationId", ArgVal.num 5)] =
      .ok [("organizationId", ArgVal.num 5), ("monthsBack", ArgVal.num 6)] := by rfl
  ⟨h, C1_success_returns_undefined (fun _ => true) "get_cost_trends"
    [("organizationId", ArgVal.num 5)]
    [("organizationId", ArgVal.num 5), ("monthsBack", ArgVal.num 6)] h⟩

end Crayon
